import Mathlib

/-!
Verification of the sipuri library (SIP/SIPS URI parser).

Go strings are modelled as lists of byte values (each a natural number;
inputs of interest use values below 256).  Go functions that can panic
(index out of range, negative allocation) are modelled in the Option
monad: `none` is a panic, `some r` a normal return of `r`.

Byte constants used throughout:
  37 is the percent sign, 38 ampersand, 58 colon, 59 semicolon,
  61 equals, 63 question mark, 64 at sign, 91 open square bracket,
  93 close square bracket.
-/

set_option maxHeartbeats 1000000

/-- A Go string, as its list of bytes. -/
abbrev GoStr := List Nat

/-- Byte list of an ASCII Lean string literal (used only for ASCII literals). -/
def bytes (s : String) : GoStr := s.data.map Char.toNat

/-- The escaping contexts from escape.go (`type encoding int`). -/
inductive Encoding
| encodeHost
| encodeUserPassword
| encodeQueryComponent
deriving DecidableEq

export Encoding (encodeHost encodeUserPassword encodeQueryComponent)

/-- Is the byte an ASCII alphanumeric character (RFC 3986 section 2.3 alphanum)? -/
def isAlphaNum (c : Nat) : Bool :=
  (97 ≤ c && c ≤ 122) || (65 ≤ c && c ≤ 90) || (48 ≤ c && c ≤ 57)

/-- Membership in the host-allowed punctuation set of escape.go
(the bytes of the Go case list for encodeHost). -/
def hostExtraByte (c : Nat) : Bool :=
  c == 33 || c == 36 || c == 38 || c == 39 || c == 40 || c == 41 ||
  c == 42 || c == 43 || c == 44 || c == 59 || c == 61 || c == 58 ||
  c == 91 || c == 93 || c == 60 || c == 62 || c == 34

/-- The mark bytes of RFC 3986 section 2.3: hyphen, underscore, dot, tilde. -/
def markByte (c : Nat) : Bool :=
  c == 45 || c == 95 || c == 46 || c == 126

/-- The reserved bytes of escape.go's second switch case. -/
def reservedByte (c : Nat) : Bool :=
  c == 36 || c == 38 || c == 43 || c == 44 || c == 47 || c == 58 ||
  c == 59 || c == 61 || c == 63 || c == 64

/-- Translation of `(mode encoding) shouldEscape(char byte) bool` from escape.go. -/
def Encoding.shouldEscape (mode : Encoding) (char : Nat) : Bool :=
  if isAlphaNum char then false
  else if mode == encodeHost && hostExtraByte char then false
  else if markByte char then false
  else if reservedByte char then
    match mode with
    | encodeUserPassword => char == 64 || char == 47 || char == 63 || char == 58
    | encodeQueryComponent => true
    | encodeHost => true
  else true

/-- The byte list of the constant `upperhex = "0123456789ABCDEF"`. -/
def upperhex : GoStr := bytes "0123456789ABCDEF"

/-- One output byte of `upperhex[i]` (indexing into the constant). -/
def upperhexAt (i : Nat) : Nat := upperhex.getD i 0

/-- Translation of `escapeInto` from escape.go.  The Go function writes into a
caller-supplied buffer; the bytes written are modelled as the returned list.
Note that the source escapes with `encodeQueryComponent.shouldEscape`
unconditionally, regardless of the mode the caller of `escape` supplied. -/
def escapeInto : GoStr → GoStr
| [] => []
| c :: rest =>
  if encodeQueryComponent.shouldEscape c then
    37 :: upperhexAt (c / 16) :: upperhexAt (c % 16) :: escapeInto rest
  else
    c :: escapeInto rest

/-- Translation of `escape(input string, mode encoding) string` from escape.go.
The buffer is allocated as `len(input) + 2*hexCount` with `hexCount` counted
using `mode`, but `escapeInto` writes using the query-component table; when the
write runs past the end of the buffer Go panics, modelled as `none`. -/
def escape (input : GoStr) (mode : Encoding) : Option GoStr :=
  let hexCount := input.countP (fun c => mode.shouldEscape c)
  if hexCount == 0 then
    some input
  else
    let required := input.length + 2 * hexCount
    let written := escapeInto input
    if written.length ≤ required then some written else none

/-- Translation of `checkValidHexCharacter(hex byte) byte` from escape.go:
the value of a hex digit, or the error bit 16 for a non-digit. -/
def checkValidHexCharacter (hex : Nat) : Nat :=
  if 65 ≤ hex && hex ≤ 70 then hex - 65 + 10
  else if 97 ≤ hex && hex ≤ 102 then hex - 97 + 10
  else if 48 ≤ hex && hex ≤ 57 then hex - 48
  else 16

/-- EscapeError from errors.go: carries the offending fragment. -/
structure EscapeErr where
  frag : GoStr
deriving DecidableEq

deriving instance DecidableEq for Except

/-- The counting/validation scan of `Unescape` (its first loop): returns the
number of percent signs encountered and, for a percent sign within two bytes
of the end, the error fragment `input[i-2:]`. -/
def scanPercents : GoStr → Nat × Option GoStr
| [] => (0, none)
| c :: rest =>
  if c == 37 then
    match rest with
    | _ :: _ :: t =>
      let r := scanPercents t
      (r.1 + 1, r.2)
    | _ => (1, some (c :: rest))
  else scanPercents rest

/-- Translation of `unescapeInto` from escape.go.  The buffer is modelled as
the returned list; a read past the end of the input (only reachable when the
scan in `Unescape` did not run) is a panic, modelled as `none`. -/
def unescapeIntoRun : GoStr → Option (Except EscapeErr GoStr)
| [] => some (.ok [])
| c :: rest =>
  if c == 37 then
    match rest with
    | a :: b :: t =>
      let gByte := checkValidHexCharacter a
      let lByte := checkValidHexCharacter b
      if (gByte ||| lByte) &&& 16 ≠ 0 then some (.error ⟨[c, a, b]⟩)
      else (unescapeIntoRun t).map (fun r => r.map (fun out => (gByte * 16 + lByte) :: out))
    | _ => none
  else (unescapeIntoRun rest).map (fun r => r.map (fun out => c :: out))

/-- Translation of `Unescape(input string) (string, error)` from escape.go. -/
def Unescape (input : GoStr) : Option (Except EscapeErr GoStr) :=
  let scan := scanPercents input
  match scan.2 with
  | some frag => some (.error ⟨frag⟩)
  | none =>
    if scan.1 == 0 then some (.ok input)
    else unescapeIntoRun input

/-- The loop of `UnescapeErrorChecker`; reads past the end of the input
(unreachable under the entry checks) are a panic, modelled as `none`. -/
def checkerLoop : GoStr → Option (Option EscapeErr)
| [] => some none
| c :: rest =>
  if c == 37 then
    match rest with
    | a :: b :: t =>
      if (checkValidHexCharacter a ||| checkValidHexCharacter b) &&& 16 ≠ 0 then
        some (some ⟨[c, a, b]⟩)
      else checkerLoop t
    | _ => none
  else checkerLoop rest

/-- Translation of `UnescapeErrorChecker(input string) error` from escape.go.
The source indexes `input[l-1]` and `input[l-2]` unconditionally, which
panics (`none`) when the input has fewer than two bytes, except that a
one-byte input equal to a percent sign is reported before the second index. -/
def UnescapeErrorChecker (input : GoStr) : Option (Option EscapeErr) :=
  let l := input.length
  if l == 0 then none
  else if input.getD (l - 1) 0 == 37 then some (some ⟨[37]⟩)
  else if l == 1 then none
  else if input.getD (l - 2) 0 == 37 then some (some ⟨input.drop (l - 2)⟩)
  else checkerLoop input

/-! ### Go strings package primitives used by the source -/

/-- Index of the first occurrence of `sep` as a contiguous run of `s`
(Go `strings.Index`); `none` when absent. -/
def goIndex : GoStr → GoStr → Option Nat
| s, sep =>
  if sep.isPrefixOf s then some 0
  else
    match s with
    | [] => none
    | _ :: t => (goIndex t sep).map (· + 1)

/-- Go `strings.Cut(s, sep)`: text before the first occurrence of `sep`,
text after it, and whether it occurred. -/
def goCut (s sep : GoStr) : GoStr × GoStr × Bool :=
  match goIndex s sep with
  | some i => (s.take i, s.drop (i + sep.length), true)
  | none => (s, [], false)

/-- Fuel-driven worker for `goSplit`; the fuel is always sufficient for a
non-empty separator. -/
def goSplitAux : Nat → GoStr → GoStr → List GoStr
| 0, s, _ => [s]
| fuel + 1, s, sep =>
  match goIndex s sep with
  | some i => s.take i :: goSplitAux fuel (s.drop (i + sep.length)) sep
  | none => [s]

/-- Go `strings.Split(s, sep)`.  The repository only ever splits on the
one-byte separators ";" and "&"; the empty-separator case (Go splits into
UTF-8 runes there) is modelled byte-wise and is never used. -/
def goSplit (s sep : GoStr) : List GoStr :=
  if sep.isEmpty then s.map (fun b => [b]) else goSplitAux (s.length + 1) s sep

/-- Lexicographic byte order on Go strings (the order of `sort.Strings`). -/
def strLe : GoStr → GoStr → Bool
| [], _ => true
| _ :: _, [] => false
| a :: as, b :: bs => if a < b then true else if a > b then false else strLe as bs

/-- Insert into a list sorted by `strLe`. -/
def sortInsert (x : GoStr) : List GoStr → List GoStr
| [] => [x]
| y :: ys => if strLe x y then x :: y :: ys else y :: sortInsert x ys

/-- Go `sort.Strings`: sort a key list into lexicographic order. -/
def sortStrings (l : List GoStr) : List GoStr :=
  l.foldr sortInsert []

/-- Go `strings.ToUpper`, restricted to its ASCII fast path (the transport
parameter values of interest are ASCII). -/
def goToUpper (s : GoStr) : GoStr :=
  s.map (fun c => if 97 ≤ c && c ≤ 122 then c - 32 else c)

/-! ### The multi-valued key-value stores of escape.go -/

/-- KeyValuePairs (`map[string][]string`), modelled as an association list in
key-insertion order with distinct keys; each key maps to its values in
insertion order.  Only the observable behavior of the Go map (lookup, size,
and the key set handed to `sort.Strings` by the encoder) is relied upon. -/
abbrev KeyValuePairs := List (GoStr × List GoStr)

/-- `result[key] = append(result[key], value)` on the association list. -/
def kvAppend : KeyValuePairs → GoStr → GoStr → KeyValuePairs
| [], key, value => [(key, [value])]
| (k, vs) :: rest, key, value =>
  if k == key then (k, vs ++ [value]) :: rest
  else (k, vs) :: kvAppend rest key value

/-- `m[key]` on the association list (empty sequence when absent). -/
def kvLookup : KeyValuePairs → GoStr → List GoStr
| [], _ => []
| (k, vs) :: rest, key => if k == key then vs else kvLookup rest key

/-- Translation of `DecodeURLValues(input, separator string)` from escape.go. -/
def DecodeURLValues (input separator : GoStr) : Option (Except EscapeErr KeyValuePairs) :=
  let rec go : List GoStr → KeyValuePairs → Option (Except EscapeErr KeyValuePairs)
  | [], acc => some (.ok acc)
  | pair :: rest, acc =>
    let cut := goCut pair (bytes "=")
    match Unescape cut.1 with
    | none => none
    | some (.error e) => some (.error e)
    | some (.ok key) =>
      match Unescape cut.2.1 with
      | none => none
      | some (.error e) => some (.error e)
      | some (.ok value) => go rest (kvAppend acc key value)
  go (goSplit input separator) []

/-- Translation of `EncodeURLValues(input map[string][]string) string` from
escape.go.  The output buffer is sized `charCount + 2*hexCount +
2*keyValuesCount - 1`; a negative size makes Go's `make` panic (`none`).
The writer fills the buffer exactly, so the written bytes are modelled as
the concatenation it produces. -/
def EncodeURLValues (input : KeyValuePairs) : Option GoStr :=
  let keyCount := input.length
  if keyCount == 0 then some []
  else
    let charCount := (input.map (fun p => p.1.length * p.2.length)).sum +
      (input.map (fun p => (p.2.map List.length).sum)).sum
    let hexCount := (input.map (fun p =>
        (p.1.countP (fun c => encodeQueryComponent.shouldEscape c)) * p.2.length)).sum +
      (input.map (fun p =>
        (p.2.map (fun v => v.countP (fun c => encodeQueryComponent.shouldEscape c))).sum)).sum
    let keyValuesCount := (input.map (fun p => p.2.length)).sum
    let required : Int := (charCount : Int) + 2 * hexCount + 2 * keyValuesCount - 1
    if required < 0 then none
    else
      let keys := sortStrings (input.map (·.1))
      let pairs := keys.flatMap (fun k => (kvLookup input k).map (fun v => (k, v)))
      some (List.intercalate [38] (pairs.map (fun p => escapeInto p.1 ++ [61] ++ escapeInto p.2)))

/-- The store variants behind the `KeyValueStore` interface: `EmptyStore`,
`KeyValuePairs`, and `LazyStore{KeyValuePairs, input, separator}`. -/
inductive KVStore
| empty
| pairs (m : KeyValuePairs)
| lazy (kvp : Option KeyValuePairs) (input : GoStr) (separator : GoStr)
deriving DecidableEq

/-- `LazyStore.load`: decode the stored text, ignoring the (already checked)
error; a decode error leaves the nil map, a panic propagates. -/
def lazyLoad (kvp : Option KeyValuePairs) (input separator : GoStr) :
    Option KeyValuePairs :=
  match kvp with
  | some m => some m
  | none =>
    match DecodeURLValues input separator with
    | none => none
    | some (.ok m) => some m
    | some (.error _) => some []

/-- `Get` on a store (first value for the key, or the empty string). -/
def KVStore.Get : KVStore → GoStr → Option GoStr
| .empty, _ => some []
| .pairs m, key => some ((kvLookup m key).headD [])
| .lazy kvp input separator, key =>
  (lazyLoad kvp input separator).map (fun m => (kvLookup m key).headD [])

/-- `Encode` on a store. -/
def KVStore.Encode : KVStore → Option GoStr
| .empty => some []
| .pairs m => EncodeURLValues m
| .lazy kvp input separator =>
  match lazyLoad kvp input separator with
  | none => none
  | some m => EncodeURLValues m

/-- `Len` on a store (number of distinct keys). -/
def KVStore.Len : KVStore → Option Nat
| .empty => some 0
| .pairs m => some m.length
| .lazy kvp input separator => (lazyLoad kvp input separator).map List.length

/-- `Empty` on a store.  The lazy variant does not load: it checks the decoded
map if present and otherwise whether the raw text is empty. -/
def KVStore.Empty : KVStore → Bool
| .empty => true
| .pairs m => m.isEmpty
| .lazy kvp input _ =>
  match kvp with
  | some m => m.isEmpty
  | none => input.isEmpty

/-- `(*KeyValuePairs).Decode`: eager decoding into a fresh map. -/
def eagerDecode (input separator : GoStr) : Option (Except EscapeErr KVStore) :=
  match DecodeURLValues input separator with
  | none => none
  | some (.error e) => some (.error e)
  | some (.ok m) => some (.ok (.pairs m))

/-- `(*LazyStore).Decode`: store the raw text and run only the checking-only
validator. -/
def lazyDecode (input separator : GoStr) : Option (Except EscapeErr KVStore) :=
  match UnescapeErrorChecker input with
  | none => none
  | some (some e) => some (.error e)
  | some none => some (.ok (.lazy none input separator))

/-! ### The URI record of sipuri.go and the Go standard library helper it uses -/

/-- Go `net.AddrError` (only its presence matters to the parser). -/
structure AddrError where
  why : String
  addr : GoStr
deriving DecidableEq

/-- Index of the first occurrence of a byte (Go `bytealg.IndexByteString`). -/
def indexByte : GoStr → Nat → Option Nat
| [], _ => none
| c :: rest, b => if c == b then some 0 else (indexByte rest b).map (· + 1)

/-- Index of the last occurrence of a byte (the `last` helper of net/ipsock.go). -/
def lastIndexByte (s : GoStr) (b : Nat) : Option Nat :=
  (indexByte s.reverse b).map (fun i => s.length - 1 - i)

/-- Translation of Go's `net.SplitHostPort` (net/ipsock.go), the standard
library routine the repository calls: the port starts after the last colon;
a leading open bracket demands a bracketed IPv6 form. -/
def netSplitHostPort (hostport : GoStr) : GoStr × GoStr × Option AddrError :=
  match lastIndexByte hostport 58 with
  | none => ([], [], some ⟨"missing port in address", hostport⟩)
  | some i =>
    if hostport.headD 0 == 91 then
      match indexByte hostport 93 with
      | none => ([], [], some ⟨"missing bracket in address", hostport⟩)
      | some e =>
        if e + 1 == hostport.length then
          ([], [], some ⟨"missing port in address", hostport⟩)
        else if e + 1 == i then
          let host := (hostport.take e).drop 1
          if (indexByte (hostport.drop 1) 91).isSome then
            ([], [], some ⟨"missing bracket in address", hostport⟩)
          else if (indexByte (hostport.drop (e + 1)) 93).isSome then
            ([], [], some ⟨"unexpected bracket in address", hostport⟩)
          else (host, hostport.drop (i + 1), none)
        else if hostport.getD (e + 1) 0 == 58 then
          ([], [], some ⟨"too many colons in address", hostport⟩)
        else ([], [], some ⟨"missing port in address", hostport⟩)
    else
      let host := hostport.take i
      if (indexByte host 58).isSome then
        ([], [], some ⟨"too many colons in address", hostport⟩)
      else if (indexByte hostport 91).isSome then
        ([], [], some ⟨"missing bracket in address", hostport⟩)
      else if (indexByte hostport 93).isSome then
        ([], [], some ⟨"unexpected bracket in address", hostport⟩)
      else (host, hostport.drop (i + 1), none)

/-- The URI record of sipuri.go.  `proto` is the Go `Protocol` (a bool:
false is SIP, true is SIPS); `params` and `headers` model the nilable
`KeyValueStore` interface fields. -/
structure URI where
  proto : Bool
  user : GoStr
  pass : GoStr
  host : GoStr
  params : Option KVStore
  headers : Option KVStore
  hadPass : Bool
  hadParam : Bool
  hadHeader : Bool
deriving DecidableEq

/-- The byte list of the constant `SIPProtocol = "sip:"`. -/
def sipProtocol : GoStr := bytes "sip:"

/-- The byte list of the constant `SIPSProtocol = "sips:"`. -/
def sipsProtocol : GoStr := bytes "sips:"

/-- `URI.Params()`: the params store, with nil replaced by `EmptyStore`. -/
def URI.Params (u : URI) : KVStore := u.params.getD .empty

/-- `URI.Headers()`: the headers store, with nil replaced by `EmptyStore`. -/
def URI.Headers (u : URI) : KVStore := u.headers.getD .empty

/-- `URI.User()`: the user portion as stored. -/
def URI.User (u : URI) : GoStr := u.user

/-- `URI.Password()`: the password portion as stored. -/
def URI.Password (u : URI) : GoStr := u.pass

/-- `URI.Host()`: the host portion as stored. -/
def URI.Host (u : URI) : GoStr := u.host

/-- Translation of `URI.SplitHostPort` from sipuri.go. -/
def URI.SplitHostPort (u : URI) : GoStr × GoStr × Option AddrError :=
  let ipv6 := decide (u.host.length > 0) && u.host.headD 0 == 91
  let colonCount := u.host.count 58
  if (!ipv6 && decide (colonCount > 0)) ||
      (ipv6 && (colonCount % 2 == 1 || !(u.host.getLast? == some 93))) then
    netSplitHostPort u.host
  else (u.host, [], none)

/-- Translation of `URI.Transport` from sipuri.go.  The store lookup may
panic for a lazy store, hence the Option. -/
def URI.Transport (u : URI) : Option GoStr := do
  let transport ← u.Params.Get (bytes "transport")
  if transport ≠ [] then
    pure (goToUpper transport)
  else if u.proto then pure (bytes "TCP") else pure (bytes "UDP")

/-- Translation of `URI.Port` from sipuri.go. -/
def URI.Port (u : URI) : Option GoStr :=
  let port := u.SplitHostPort.2.1
  if port ≠ [] then some port
  else if u.proto then some (bytes "5061")
  else do
    let t ← u.Transport
    if t == bytes "UDP" || t == bytes "TCP" || t == bytes "SCTP" then
      pure (bytes "5060")
    else if t == bytes "TLS" then pure (bytes "5061")
    else pure []

/-- Translation of `URI.String` from sipuri.go.  The builder writes are
modelled as list concatenation; panics inside `escape` or `Encode`
propagate. -/
def URI.String (u : URI) : Option GoStr := do
  let proto := if u.proto then sipsProtocol else sipProtocol
  let userPart ←
    if u.user ≠ [] then do
      let eu ← escape u.user encodeUserPassword
      let colon : GoStr := if u.hadPass || u.pass ≠ [] then [58] else []
      let ep ← if u.pass ≠ [] then escape u.pass encodeUserPassword else pure []
      pure (eu ++ colon ++ ep ++ [64])
    else pure []
  let hostPart ← escape u.host encodeHost
  let paramsDelim : GoStr := if u.hadParam || !u.Params.Empty then [59] else []
  let paramsPart ← if !u.Params.Empty then u.Params.Encode else pure []
  let headersDelim : GoStr := if u.hadHeader || !u.Headers.Empty then [63] else []
  let headersPart ← if !u.Headers.Empty then u.Headers.Encode else pure []
  pure (proto ++ userPart ++ hostPart ++ paramsDelim ++ paramsPart ++
    headersDelim ++ headersPart)

/-- A `uriOption` of sipuri.go, as the update it applies. -/
abbrev UriOption := URI → URI

/-- `WithParams`. -/
def WithParams (params : KVStore) : UriOption := fun u => { u with params := some params }

/-- `WithHeaders`. -/
def WithHeaders (headers : KVStore) : UriOption := fun u => { u with headers := some headers }

/-- `WithPassword`. -/
def WithPassword (pass : GoStr) : UriOption := fun u => { u with pass := pass }

/-- `Secure`. -/
def Secure : UriOption := fun u => { u with proto := true }

/-- Translation of `New(user, host string, opts ...uriOption) URI`. -/
def New (user host : GoStr) (opts : List UriOption) : URI :=
  opts.foldl (fun u opt => opt u)
    { proto := false, user := user, pass := [], host := host,
      params := none, headers := none,
      hadPass := false, hadParam := false, hadHeader := false }

/-! ### The parser of parse.go -/

/-- The `MalformCause` enumeration of errors.go. -/
inductive MalformCause
| unspecified
| missingUser
| missingHost
| malformedUser
| malformedHost
| malformedParams
| malformedHeaders
deriving DecidableEq

/-- The error wrapped inside a `MalformedURIError` (an escape error or a
`net.AddrError` from `SplitHostPort`). -/
inductive InnerErr
| escape (e : EscapeErr)
| addr (a : AddrError)
deriving DecidableEq

/-- The errors Parse can return: `ErrInvalidScheme` or a
`MalformedURIError{Cause, Err}`. -/
inductive GoError
| invalidScheme
| malformed (cause : MalformCause) (err : Option InnerErr)
deriving DecidableEq

/-- Translation of `parse(proto Protocol, uri string, lazy bool)` from
parse.go. -/
def parseURI (proto : Bool) (uri : GoStr) (lazy : Bool) :
    Option (Except GoError URI) :=
  let cutAt := goCut uri [64]
  let hasAt := cutAt.2.2
  if hasAt && cutAt.1 == [] then
    some (.error (.malformed .missingUser none))
  else
    -- when there is no at sign the two halves are swapped, making userinfo empty
    let userinfo := if hasAt then cutAt.1 else cutAt.2.1
    let post := if hasAt then cutAt.2.1 else cutAt.1
    if post == [] then some (.error (.malformed .missingHost none))
    else
      let cutQ := goCut post [63]
      let hadHeader := cutQ.2.2
      let headers := cutQ.2.1
      let cutS := goCut cutQ.1 [59]
      let hadParam := cutS.2.2
      let params := cutS.2.1
      if cutS.1 == [] then some (.error (.malformed .missingHost none))
      else
        let cutC := goCut userinfo [58]
        match Unescape cutC.1 with
        | none => none
        | some (.error e) => some (.error (.malformed .malformedUser (some (.escape e))))
        | some (.ok user) =>
          match Unescape cutS.1 with
          | none => none
          | some (.error e) => some (.error (.malformed .malformedHost (some (.escape e))))
          | some (.ok host) =>
            let base : URI :=
              { proto := proto, user := user, pass := cutC.2.1, host := host,
                params := none, headers := none,
                hadPass := cutC.2.2, hadParam := hadParam, hadHeader := hadHeader }
            match base.SplitHostPort.2.2 with
            | some a => some (.error (.malformed .malformedHost (some (.addr a))))
            | none =>
              let decodeP :=
                if params == [] then some (.ok KVStore.empty)
                else if lazy then lazyDecode params [59] else eagerDecode params [59]
              match decodeP with
              | none => none
              | some (.error e) =>
                some (.error (.malformed .malformedParams (some (.escape e))))
              | some (.ok pstore) =>
                let decodeH :=
                  if headers == [] then some (.ok KVStore.empty)
                  else if lazy then lazyDecode headers [38] else eagerDecode headers [38]
                match decodeH with
                | none => none
                | some (.error e) =>
                  some (.error (.malformed .malformedHeaders (some (.escape e))))
                | some (.ok hstore) =>
                  some (.ok { base with params := some pstore, headers := some hstore })

/-- Translation of `Parse(uri string)` from parse.go. -/
def Parse (uri : GoStr) : Option (Except GoError URI) :=
  if sipProtocol.isPrefixOf uri then parseURI false (uri.drop sipProtocol.length) false
  else if sipsProtocol.isPrefixOf uri then parseURI true (uri.drop sipsProtocol.length) false
  else some (.error .invalidScheme)

/-- Translation of `ParseLazy(uri string)` from parse.go. -/
def ParseLazy (uri : GoStr) : Option (Except GoError URI) :=
  if sipProtocol.isPrefixOf uri then parseURI false (uri.drop sipProtocol.length) true
  else if sipsProtocol.isPrefixOf uri then parseURI true (uri.drop sipsProtocol.length) true
  else some (.error .invalidScheme)

/-! ### Derived and claim-side definitions -/

/-- Parse then serialize the unmutated record (the round-trip composition). -/
def parseThenString (s : GoStr) : Option GoStr :=
  match Parse s with
  | some (.ok u) => u.String
  | _ => none

/-- Is the byte a valid hexadecimal digit? -/
def isHexDigit (d : Nat) : Bool :=
  (48 ≤ d && d ≤ 57) || (65 ≤ d && d ≤ 70) || (97 ≤ d && d ≤ 102)

/-- The well-formedness condition of the unescape claim: every percent sign
in the string is followed by two valid hexadecimal digits. -/
def goodPercents : GoStr → Bool
| [] => true
| c :: rest =>
  (if c == 37 then
    match rest with
    | a :: b :: _ => isHexDigit a && isHexDigit b
    | _ => false
  else true) && goodPercents rest

/-- The claimed shape of an escape-error fragment: a bare percent, a percent
with one byte, or a percent with two bytes at least one of which is not a
valid hex digit. -/
def fragShape : GoStr → Bool
| [37] => true
| [37, _] => true
| [37, a, b] => !(isHexDigit a && isHexDigit b)
| _ => false

/-- Modelled from the claim's words: the input with each percent-hex-hex
triplet replaced by the single byte it denotes and all other bytes copied
unchanged (the comparison target for the success case of Unescape). -/
def specDecodeTriplets : GoStr → GoStr
| 37 :: a :: b :: t =>
  if isHexDigit a && isHexDigit b then
    (checkValidHexCharacter a * 16 + checkValidHexCharacter b) :: specDecodeTriplets t
  else 37 :: specDecodeTriplets (a :: b :: t)
| c :: rest => c :: specDecodeTriplets rest
| [] => []

/-- Modelled from the spec's words for transport: the upper-cased explicit
transport parameter value when non-empty, otherwise UDP for SIP and TCP for
SIPS. -/
def specTransport (proto : Bool) (tv : GoStr) : GoStr :=
  if tv ≠ [] then goToUpper tv
  else if proto then bytes "TCP" else bytes "UDP"

/-- Modelled from the spec's words for port: the explicit port from
splitHostPort when present; otherwise 5061 for SIPS; otherwise, for SIP,
5060 when the transport resolves to UDP, TCP or SCTP, 5061 for TLS, and the
empty string for any other transport. -/
def specPort (u : URI) (tv : GoStr) : GoStr :=
  let port := u.SplitHostPort.2.1
  if port ≠ [] then port
  else if u.proto then bytes "5061"
  else
    let t := specTransport u.proto tv
    if t = bytes "UDP" ∨ t = bytes "TCP" ∨ t = bytes "SCTP" then bytes "5060"
    else if t = bytes "TLS" then bytes "5061"
    else []

/-- A byte the user-info serializer leaves unescaped (and which is therefore
safe inside a canonical user or password: the escaped set includes the at
sign, colon, slash, question mark and percent). -/
def userSafeByte (b : Nat) : Bool := !(encodeUserPassword.shouldEscape b)

/-- A byte the host serializer leaves unescaped and which does not interfere
with the host-side splits: colon and open bracket (the port/IPv6 syntax) and
semicolon (the parameter delimiter) are additionally excluded. -/
def hostSafeByte (b : Nat) : Bool :=
  !(encodeHost.shouldEscape b) && !(b == 58) && !(b == 59) && !(b == 91)

/-- A byte the query-component serializer leaves unescaped (ASCII
alphanumerics and the marks). -/
def querySafeByte (b : Nat) : Bool := !(encodeQueryComponent.shouldEscape b)

/-- Strict lexicographic byte order on Go strings. -/
def strLt : GoStr → GoStr → Bool
| [], [] => false
| [], _ :: _ => true
| _ :: _, [] => false
| a :: as, b :: bs => if a < b then true else if a > b then false else strLt as bs

/-- Every listed key is strictly below every later one (so the keys are
distinct and already in the order sort.Strings produces). -/
def pairwiseStrLt : List GoStr → Bool
| [] => true
| k :: ks => ks.all (fun k2 => strLt k k2) && pairwiseStrLt ks

/-- Every value of the list is a genuine byte (below 256). -/
def allBytes (s : GoStr) : Bool := s.all (fun b => decide (b < 256))

/-- A byte admissible in a canonically escaped user component: a genuine
byte that the query table escapes only if the user-info table escapes it
too, so the user-info count sizes the buffer exactly for the
query-escaped write. -/
def userCanonByte (b : Nat) : Bool :=
  decide (b < 256) &&
    (!(encodeQueryComponent.shouldEscape b) || encodeUserPassword.shouldEscape b)

/-- The serialized form of a canonical user: the decoded bytes themselves
when all are user-safe (then escape is the identity), otherwise their
percent-escaping. -/
def renderUser (u : GoStr) : GoStr := if u.all userSafeByte then u else escapeInto u

/-- Both halves of a decoded key=value pair are genuine bytes. -/
def pairBytes (p : GoStr × GoStr) : Bool := allBytes p.1 && allBytes p.2

/-- The serialized form of a decoded key=value pair: both halves
query-escaped around an explicit equals sign. -/
def renderPair (p : GoStr × GoStr) : GoStr := escapeInto p.1 ++ 61 :: escapeInto p.2

/-- The canonical host shapes: a bare name, a name with a port, a bracketed
IPv6 literal, and a bracketed IPv6 literal with a port. -/
inductive CanonHost
| name (hn : GoStr)
| withPort (hn pt : GoStr)
| bracket (ip : GoStr)
| bracketPort (ip pt : GoStr)

/-- A byte admissible in the name or port half of a host:port form: a
host-legal byte other than colon, semicolon and the square brackets. -/
def hostPortByte (b : Nat) : Bool :=
  !(encodeHost.shouldEscape b) && !(b == 58) && !(b == 59) && !(b == 91) && !(b == 93)

/-- A byte admissible inside a bracketed IPv6 literal: a host-legal byte
other than semicolon and the square brackets (colons are allowed). -/
def ipByte (b : Nat) : Bool :=
  !(encodeHost.shouldEscape b) && !(b == 59) && !(b == 91) && !(b == 93)

/-- A byte every canonical host text is made of: host-legal and not the
parameter delimiter. -/
def hostOuterByte (b : Nat) : Bool := !(encodeHost.shouldEscape b) && !(b == 59)

/-- The side condition on each host shape under which SplitHostPort accepts
it: a bare name is non-empty over split-safe bytes; name and port halves use
no colon or bracket; a bracketed literal without a port needs an even number
of inner colons (net.SplitHostPort reports the odd case as a missing
port). -/
def canonHostOK : CanonHost → Bool
| .name hn => !hn.isEmpty && hn.all hostSafeByte
| .withPort hn pt => hn.all hostPortByte && pt.all hostPortByte
| .bracket ip => ip.all ipByte && (ip.count 58) % 2 == 0
| .bracketPort ip pt => ip.all ipByte && pt.all hostPortByte

/-- The host text each canonical host shape denotes. -/
def hostText : CanonHost → GoStr
| .name hn => hn
| .withPort hn pt => hn ++ 58 :: pt
| .bracket ip => 91 :: (ip ++ [93])
| .bracketPort ip pt => 91 :: (ip ++ 93 :: 58 :: pt)

/-- The user-info piece of a canonical-form URI string: empty, a rendered
user with the at sign, or a rendered user, colon, literal password and the
at sign. -/
def uinfoText : Option (GoStr × Option GoStr) → GoStr
| none => []
| some (u, none) => renderUser u ++ [64]
| some (u, some p) => renderUser u ++ [58] ++ p ++ [64]

/-- The parameter block of a canonical-form URI string: empty or a single
delimited rendered pair. -/
def parText : Option (GoStr × GoStr) → GoStr
| none => []
| some pr => 59 :: renderPair pr

/-- The header block of a canonical-form URI string: empty or a question
mark followed by the rendered pairs joined with ampersands. -/
def hdrText : List (GoStr × GoStr) → GoStr
| [] => []
| p :: rest => 63 :: List.intercalate [38] ((p :: rest).map renderPair)

/-- A canonical-form SIP URI string assembled from decoded components:
scheme, an optional user (escaped when needed) with optional password, a
host in one of the four shapes, an optional single parameter pair and a
sorted list of header pairs, each pair rendered query-escaped with an
explicit equals sign. -/
def canonicalSip (secure : Bool) (uinfo : Option (GoStr × Option GoStr))
    (ch : CanonHost) (par : Option (GoStr × GoStr)) (hdr : List (GoStr × GoStr)) : GoStr :=
  (if secure then sipsProtocol else sipProtocol) ++
  uinfoText uinfo ++ hostText ch ++ parText par ++ hdrText hdr

/-- The URI record a canonical-form string parses to: decoded user, literal
password, literal host text, the optional parameter pair as a singleton
store and the header pairs as a store keyed pair-by-pair. -/
def canonicalRecord (secure : Bool) (uinfo : Option (GoStr × Option GoStr))
    (ch : CanonHost) (par : Option (GoStr × GoStr)) (hdr : List (GoStr × GoStr)) : URI :=
  { proto := secure,
    user := (uinfo.map (·.1)).getD [],
    pass := ((uinfo.bind (·.2))).getD [],
    host := hostText ch,
    params := some (match par with
      | none => .empty
      | some pr => .pairs [(pr.1, [pr.2])]),
    headers := some (match hdr with
      | [] => .empty
      | p :: rest => .pairs ((p :: rest).map (fun q => (q.1, [q.2])))),
    hadPass := (uinfo.map (·.2.isSome)).getD false,
    hadParam := par.isSome,
    hadHeader := !hdr.isEmpty }

/-- The side conditions under which a canonical-form string round-trips:
a non-empty user that is either user-safe or canonically escapable, a
user-safe password, a host accepted by SplitHostPort, a parameter pair of
genuine bytes and header pairs of genuine bytes with strictly sorted
keys. -/
def canonicalConditions (uinfo : Option (GoStr × Option GoStr))
    (ch : CanonHost) (par : Option (GoStr × GoStr)) (hdr : List (GoStr × GoStr)) : Bool :=
  (match uinfo with
   | none => true
   | some (u, pw) =>
     !u.isEmpty && (u.all userSafeByte || u.all userCanonByte) &&
     (match pw with
      | none => true
      | some p => p.all userSafeByte)) &&
  canonHostOK ch &&
  (match par with
   | none => true
   | some pr => pairBytes pr) &&
  (hdr.all pairBytes && pairwiseStrLt (hdr.map (·.1)))

/-! ### Theorems -/

/-- C1 counterexample: the round-trip claim fails as stated.  A
multi-parameter input is re-joined with an ampersand, a valueless parameter
gains an equals sign, and a percent-escape in the password is escaped a
second time, so serializing the unmutated parse result does not reproduce
these accepted canonical inputs byte-for-byte. -/
theorem c1_round_trip_counterexample :
    parseThenString (bytes "sip:u@h;a=1;b=2") = some (bytes "sip:u@h;a=1&b=2") ∧
    bytes "sip:u@h;a=1&b=2" ≠ bytes "sip:u@h;a=1;b=2" ∧
    parseThenString (bytes "sip:u@h;user") = some (bytes "sip:u@h;user=") ∧
    bytes "sip:u@h;user=" ≠ bytes "sip:u@h;user" ∧
    parseThenString (bytes "sip:u:p%40w@h") = some (bytes "sip:u:p%2540w@h") ∧
    bytes "sip:u:p%2540w@h" ≠ bytes "sip:u:p%40w@h" := by decide

/-- C2: ParseLazy does not have identical observable behavior to Parse.  On
the input with a one-byte parameter block Parse succeeds while ParseLazy
panics (UnescapeErrorChecker indexes input[len-2] on a one-byte string), and
on a parameter block ending in a stray percent the two return different
error fragments. -/
theorem c2_parse_lazy_divergence :
    (match Parse (bytes "sip:u@h;x") with
     | some (.ok _) => true
     | _ => false) = true ∧
    ParseLazy (bytes "sip:u@h;x") = none ∧
    Parse (bytes "sip:u@h;%4%") =
      some (.error (.malformed .malformedParams (some (.escape ⟨bytes "%4%"⟩)))) ∧
    ParseLazy (bytes "sip:u@h;%4%") =
      some (.error (.malformed .malformedParams (some (.escape ⟨bytes "%"⟩)))) := by decide

/-- C3: the eager and lazy stores do not agree on the Decode error outcome at
the claimed edge cases.  On the empty raw text and on a one-byte raw text the
eager decode succeeds while the lazy decode panics in
UnescapeErrorChecker. -/
theorem c3_store_decode_divergence :
    eagerDecode (bytes "") (bytes ";") = some (.ok (.pairs [([], [[]])])) ∧
    lazyDecode (bytes "") (bytes ";") = none ∧
    eagerDecode (bytes "x") (bytes ";") = some (.ok (.pairs [(bytes "x", [[]])])) ∧
    lazyDecode (bytes "x") (bytes ";") = none := by decide

/-- C4: escape does not honor its mode argument.  On a host string holding
both a space (which Host mode escapes) and a colon (which Host mode permits),
the buffer is sized by the Host table but escapeInto writes with the
query-component table, overrunning the buffer: the call panics instead of
returning the string with only the space encoded. -/
theorem c4_escape_mode_mismatch :
    escape (bytes "a b:80") encodeHost = none ∧
    (bytes "a b:80").filter (fun b => encodeHost.shouldEscape b) = [32] ∧
    escape (bytes "a b") encodeHost = some (bytes "a%20b") := by decide

/-- C5: the password is stored and returned raw, not percent-decoded.  The
parser unescapes the user and the host but never the password, so the
password accessor returns the text between the colon and the at sign
verbatim, here the still-escaped form rather than its decoding. -/
theorem c5_password_not_decoded :
    (match Parse (bytes "sip:u:p%40w@h") with
     | some (.ok u) => some u.Password
     | _ => none) = some (bytes "p%40w") ∧
    Unescape (bytes "p%40w") = some (.ok (bytes "p@w")) ∧
    bytes "p%40w" ≠ bytes "p@w" := by decide

/-- C8: the delimiter presence flags are recorded exactly when the delimiter
appears and are reproduced by String even when the decoded payload is empty:
a trailing semicolon parses to an empty parameter store and serializes back
with the semicolon, the bare form serializes without one, and the same holds
for the question mark and the header block. -/
theorem c8_presence_flags :
    parseThenString (bytes "sip:u@h;") = some (bytes "sip:u@h;") ∧
    (match Parse (bytes "sip:u@h;") with
     | some (.ok u) => u.hadParam && u.Params.Empty
     | _ => false) = true ∧
    parseThenString (bytes "sip:u@h") = some (bytes "sip:u@h") ∧
    (match Parse (bytes "sip:u@h") with
     | some (.ok u) => !u.hadParam && !u.hadHeader
     | _ => false) = true ∧
    parseThenString (bytes "sip:u@h?") = some (bytes "sip:u@h?") ∧
    (match Parse (bytes "sip:u@h?") with
     | some (.ok u) => u.hadHeader && u.Headers.Empty
     | _ => false) = true ∧
    parseThenString (bytes "sip:u@h;?") = some (bytes "sip:u@h;?") := by decide

/-- The inner parser only ever fails with a malformed-URI error (or a panic),
never with the invalid-scheme error: that error belongs to the prefix check
alone. -/
theorem parseURI_ne_invalidScheme (proto : Bool) (uri : GoStr) (lazy : Bool) :
    parseURI proto uri lazy ≠ some (.error .invalidScheme) := by
  unfold parseURI
  intro hc
  dsimp only at hc
  repeat' split at hc
  all_goals simp_all

/-- C9: Parse and ParseLazy return the invalid-scheme error exactly for the
inputs that start with neither the sip nor the sips prefix, and for those
inputs that is the only possible outcome; prefixed inputs never produce
it. -/
theorem c9_invalid_scheme_iff (s : GoStr) :
    (Parse s = some (.error .invalidScheme) ↔
      (sipProtocol.isPrefixOf s = false ∧ sipsProtocol.isPrefixOf s = false)) ∧
    (ParseLazy s = some (.error .invalidScheme) ↔
      (sipProtocol.isPrefixOf s = false ∧ sipsProtocol.isPrefixOf s = false)) := by
  unfold Parse ParseLazy
  by_cases h1 : sipProtocol.isPrefixOf s <;> by_cases h2 : sipsProtocol.isPrefixOf s <;>
    simp [h1, h2, parseURI_ne_invalidScheme]

/-- C10: when the user component is empty, String emits no user-info block at
all, so the password and the had-password flag are silently ignored; in
particular the builder example serializes to just the scheme and host. -/
theorem c10_empty_user_drops_userinfo (u : URI) (h : u.user = []) :
    u.String = ({ u with pass := [], hadPass := false } : URI).String ∧
    (New (bytes "") (bytes "h") [WithPassword (bytes "x")]).String = some (bytes "sip:h") := by
  refine ⟨?_, by decide⟩
  simp [URI.String, h, URI.Params, URI.Headers]

/-- C7: for a parsed URI whose transport parameter lookup yields a value,
Transport is the spec-side transport (upper-cased explicit value, else UDP
for SIP and TCP for SIPS) and Port is the spec-side port (the explicit port
when present, else 5061 for SIPS, else 5060 for UDP/TCP/SCTP, 5061 for TLS
and empty for anything else). -/
theorem c7_transport_port_defaults (s : GoStr) (u : URI) (tv : GoStr)
    (_hp : Parse s = some (.ok u))
    (ht : u.Params.Get (bytes "transport") = some tv) :
    u.Transport = some (specTransport u.proto tv) ∧
    u.Port = some (specPort u tv) := by
  have htr : u.Transport = some (specTransport u.proto tv) := by
    unfold URI.Transport specTransport
    rw [ht]
    simp only [Option.bind_eq_bind, Option.some_bind]
    split <;> [skip; split] <;> simp
  refine ⟨htr, ?_⟩
  unfold URI.Port specPort
  dsimp only
  split
  · rfl
  · split
    · rfl
    · rw [htr]
      simp only [Option.bind_eq_bind, Option.some_bind]
      split <;> [skip; split] <;> simp_all [or_assoc]

/-- C7 witness: the theorem applied to the parse of a URI with an explicit
TLS transport parameter. -/
theorem c7_transport_port_defaults_witness :
    (⟨false, bytes "alice", [], bytes "atlanta.com",
      some (.pairs [(bytes "transport", [bytes "tls"])]), some .empty,
      false, true, false⟩ : URI).Transport
        = some (specTransport false (bytes "tls")) ∧
    (⟨false, bytes "alice", [], bytes "atlanta.com",
      some (.pairs [(bytes "transport", [bytes "tls"])]), some .empty,
      false, true, false⟩ : URI).Port
        = some (specPort
            (⟨false, bytes "alice", [], bytes "atlanta.com",
              some (.pairs [(bytes "transport", [bytes "tls"])]), some .empty,
              false, true, false⟩ : URI) (bytes "tls")) :=
  c7_transport_port_defaults (bytes "sip:alice@atlanta.com;transport=tls")
    (⟨false, bytes "alice", [], bytes "atlanta.com",
      some (.pairs [(bytes "transport", [bytes "tls"])]), some .empty,
      false, true, false⟩ : URI) (bytes "tls") (by decide) (by decide)

/-- C10 witness: the theorem applied to the builder example itself. -/
theorem c10_empty_user_drops_userinfo_witness :
    (New (bytes "") (bytes "h") [WithPassword (bytes "x")]).String =
      ({ New (bytes "") (bytes "h") [WithPassword (bytes "x")] with
          pass := [], hadPass := false } : URI).String ∧
    (New (bytes "") (bytes "h") [WithPassword (bytes "x")]).String = some (bytes "sip:h") :=
  c10_empty_user_drops_userinfo (New (bytes "") (bytes "h") [WithPassword (bytes "x")])
    (by decide)

/-- checkValidHexCharacter never exceeds its error bit value. -/
theorem checkHex_le (d : Nat) : checkValidHexCharacter d ≤ 16 := by
  unfold checkValidHexCharacter
  repeat' split
  all_goals simp_all [Bool.and_eq_true, decide_eq_true_eq]
  all_goals omega

/-- The error bit is set exactly for non-hex-digit bytes. -/
theorem checkHex_eq16_iff (d : Nat) :
    (checkValidHexCharacter d = 16) ↔ isHexDigit d = false := by
  unfold checkValidHexCharacter isHexDigit
  repeat' split
  all_goals simp_all [Bool.and_eq_true, Bool.or_eq_true, decide_eq_true_eq]
  all_goals omega

/-- Bit 4 of an or of two values at most 16 is set iff one of them is 16. -/
theorem lorBit (x y : Nat) (hx : x ≤ 16) (hy : y ≤ 16) :
    ((x ||| y) &&& 16 ≠ 0) ↔ (x = 16 ∨ y = 16) := by
  interval_cases x <;> interval_cases y <;> decide

/-- The error test of unescapeInto holds iff one of the two bytes is not a
valid hex digit. -/
theorem hexErrBit_iff (a b : Nat) :
    ((checkValidHexCharacter a ||| checkValidHexCharacter b) &&& 16 ≠ 0) ↔
      (isHexDigit a = false ∨ isHexDigit b = false) := by
  rw [lorBit _ _ (checkHex_le a) (checkHex_le b), checkHex_eq16_iff, checkHex_eq16_iff]

/-- A hex digit is never the percent sign. -/
theorem isHexDigit_ne37 (d : Nat) (h : isHexDigit d = true) : d ≠ 37 := by
  intro hd
  subst hd
  exact absurd h (by decide)

/-- goodPercents ignores a non-percent head byte. -/
theorem goodPercents_cons_ne37 (c : Nat) (rest : GoStr) (h : c ≠ 37) :
    goodPercents (c :: rest) = goodPercents rest := by
  simp [goodPercents, h]

/-- goodPercents steps over a valid escape triplet. -/
theorem goodPercents_triplet (a b : Nat) (t : GoStr)
    (ha : isHexDigit a = true) (hb : isHexDigit b = true) :
    goodPercents (37 :: a :: b :: t) = goodPercents t := by
  simp [goodPercents, ha, hb, isHexDigit_ne37 a ha, isHexDigit_ne37 b hb]

/-- A percent followed by an invalid pair refutes goodPercents. -/
theorem goodPercents_bad_triplet (a b : Nat) (t : GoStr)
    (h : (isHexDigit a && isHexDigit b) = false) :
    goodPercents (37 :: a :: b :: t) = false := by
  simp [goodPercents]
  intro h1 h2
  simp [h1, h2] at h

/-- A percent with fewer than two following bytes refutes goodPercents. -/
theorem goodPercents_short (rest : GoStr)
    (h : ∀ a b t, rest ≠ a :: b :: t) :
    goodPercents (37 :: rest) = false := by
  match rest with
  | [] => decide
  | [x] => simp [goodPercents]
  | a :: b :: t => exact absurd rfl (h a b t)

/-- specDecodeTriplets on a valid triplet produces the denoted byte. -/
theorem specDecode_triplet (a b : Nat) (t : GoStr)
    (h : (isHexDigit a && isHexDigit b) = true) :
    specDecodeTriplets (37 :: a :: b :: t) =
      (checkValidHexCharacter a * 16 + checkValidHexCharacter b) :: specDecodeTriplets t := by
  rw [specDecodeTriplets.eq_def]
  simp [h]

/-- specDecodeTriplets copies a non-percent head byte. -/
theorem specDecode_cons_ne37 (c : Nat) (rest : GoStr) (h : c ≠ 37) :
    specDecodeTriplets (c :: rest) = c :: specDecodeTriplets rest := by
  rw [specDecodeTriplets.eq_def]
  split <;> simp_all

/-- On a well-formed input the scan reports no error and unescapeInto
produces exactly the claimed triplet decoding. -/
theorem good_scan_into (s : GoStr) (h : goodPercents s = true) :
    (scanPercents s).2 = none ∧
    unescapeIntoRun s = some (.ok (specDecodeTriplets s)) := by
  induction s using unescapeIntoRun.induct with
  | case1 => simp [scanPercents, unescapeIntoRun, specDecodeTriplets]
  | case2 c hc a b t gB lB herr =>
    exfalso
    simp only [beq_iff_eq] at hc
    subst hc
    rcases (hexErrBit_iff a b).1 herr with hbad | hbad <;>
      rw [goodPercents_bad_triplet a b t (by simp [hbad])] at h <;>
      exact absurd h (by decide)
  | case3 c hc a b t gB lB herr ih =>
    simp only [beq_iff_eq] at hc
    subst hc
    have hhex : (isHexDigit a && isHexDigit b) = true := by
      rcases Bool.eq_false_or_eq_true (isHexDigit a) with ha | ha
      · rcases Bool.eq_false_or_eq_true (isHexDigit b) with hb | hb
        · simp [ha, hb]
        · exact absurd ((hexErrBit_iff a b).2 (Or.inr hb)) herr
      · exact absurd ((hexErrBit_iff a b).2 (Or.inl ha)) herr
    have hha : isHexDigit a = true := by
      rcases Bool.eq_false_or_eq_true (isHexDigit a) with ha | ha
      · exact ha
      · simp [ha] at hhex
    have hhb : isHexDigit b = true := by
      rcases Bool.eq_false_or_eq_true (isHexDigit b) with hb | hb
      · exact hb
      · simp [hb] at hhex
    have hgt : goodPercents t = true := by
      rw [← goodPercents_triplet a b t hha hhb]
      exact h
    obtain ⟨ihs, ihi⟩ := ih hgt
    constructor
    · rw [scanPercents.eq_def]
      simp [ihs]
    · rw [unescapeIntoRun.eq_def]
      simp [herr, ihi, Except.map, specDecode_triplet a b t hhex]
  | case4 c rest hc hshort =>
    exfalso
    simp only [beq_iff_eq] at hc
    subst hc
    rw [goodPercents_short rest (by intro a b t he; exact hshort a b t he)] at h
    exact absurd h (by decide)
  | case5 c rest hc ih =>
    simp only [beq_iff_eq] at hc
    have hg : goodPercents rest = true := by
      rw [← goodPercents_cons_ne37 c rest hc]
      exact h
    obtain ⟨ihs, ihi⟩ := ih hg
    constructor
    · rw [scanPercents.eq_def]
      simp [hc, ihs]
    · rw [unescapeIntoRun.eq_def]
      simp [hc, ihi, Except.map, specDecode_cons_ne37 c rest hc]


/-- A zero hex count from the scan means the input has no percent sign. -/
theorem count0_no37 (s : GoStr) (h : (scanPercents s).1 = 0) : 37 ∉ s := by
  induction s using scanPercents.induct with
  | case1 => simp
  | case2 c hc a b t ih =>
    exfalso
    rw [scanPercents.eq_def] at h
    simp [hc] at h
  | case3 c rest hc hshort =>
    exfalso
    rw [scanPercents.eq_def] at h
    rcases rest with _ | ⟨x, _ | ⟨y, t⟩⟩ <;> simp [hc] at h
  | case4 c rest hc ih =>
    rw [scanPercents.eq_def] at h
    simp only [beq_iff_eq] at hc
    simp [hc] at h
    intro hm
    rcases List.mem_cons.mp hm with h1 | h1
    · exact hc h1.symm
    · exact (ih h) h1

/-- An input without percent signs is well-formed. -/
theorem no37_good (s : GoStr) (h : 37 ∉ s) : goodPercents s = true := by
  induction s using goodPercents.induct with
  | case1 => decide
  | case2 c rest ih =>
    have hc : c ≠ 37 := by
      intro hcc
      exact h (by simp [hcc])
    rw [goodPercents_cons_ne37 c rest hc]
    exact ih (fun hm => h (by simp [hm]))

/-- Triplet decoding is the identity on inputs without percent signs. -/
theorem no37_specDecode (s : GoStr) (h : 37 ∉ s) : specDecodeTriplets s = s := by
  induction s using goodPercents.induct with
  | case1 => decide
  | case2 c rest ih =>
    have hc : c ≠ 37 := by
      intro hcc
      exact h (by simp [hcc])
    rw [specDecode_cons_ne37 c rest hc]
    simp [ih (fun hm => h (by simp [hm]))]

/-- goodPercents of a triplet-headed list is false when the tail is bad. -/
theorem good_eq_false_cases (a b : Nat) (t : GoStr)
    (h : goodPercents t = false) : goodPercents (37 :: a :: b :: t) = false := by
  rcases Bool.eq_false_or_eq_true (isHexDigit a && isHexDigit b) with hx | hx
  · rw [goodPercents_triplet a b t (by simp [Bool.and_eq_true] at hx; exact hx.1)
      (by simp [Bool.and_eq_true] at hx; exact hx.2)]
    exact h
  · exact goodPercents_bad_triplet a b t hx

/-- A scan error carries a claimed-shape fragment and refutes
goodPercents. -/
theorem scan_err (s : GoStr) (f : GoStr) (h : (scanPercents s).2 = some f) :
    fragShape f = true ∧ goodPercents s = false := by
  induction s using scanPercents.induct with
  | case1 => simp [scanPercents] at h
  | case2 c hc a b t ih =>
    simp only [beq_iff_eq] at hc
    subst hc
    rw [scanPercents.eq_def] at h
    simp at h
    obtain ⟨hf, hg⟩ := ih h
    exact ⟨hf, good_eq_false_cases a b t hg⟩
  | case3 c rest hc hshort =>
    simp only [beq_iff_eq] at hc
    subst hc
    rw [scanPercents.eq_def] at h
    rcases rest with _ | ⟨x, _ | ⟨y, t⟩⟩
    · simp at h
      subst h
      exact ⟨by decide, by decide⟩
    · simp at h
      subst h
      refine ⟨by simp [fragShape], ?_⟩
      simp [goodPercents]
    · exact absurd rfl (hshort x y t)
  | case4 c rest hc ih =>
    simp only [beq_iff_eq] at hc
    rw [scanPercents.eq_def] at h
    simp [hc] at h
    obtain ⟨hf, hg⟩ := ih h
    exact ⟨hf, by rw [goodPercents_cons_ne37 c rest hc]; exact hg⟩

/-- An unescapeInto error carries a claimed-shape fragment and refutes
goodPercents. -/
theorem into_err (s : GoStr) (e : EscapeErr)
    (h : unescapeIntoRun s = some (.error e)) :
    fragShape e.frag = true ∧ goodPercents s = false := by
  induction s using unescapeIntoRun.induct with
  | case1 => simp [unescapeIntoRun] at h
  | case2 c hc a b t gB lB herr =>
    simp only [beq_iff_eq] at hc
    subst hc
    rw [unescapeIntoRun.eq_def] at h
    simp [herr] at h
    have hbad : (isHexDigit a && isHexDigit b) = false := by
      rcases (hexErrBit_iff a b).1 herr with hb | hb <;> simp [hb]
    subst h
    exact ⟨by simp [fragShape, hbad], goodPercents_bad_triplet a b t hbad⟩
  | case3 c hc a b t gB lB herr ih =>
    simp only [beq_iff_eq] at hc
    subst hc
    rw [unescapeIntoRun.eq_def] at h
    simp [herr] at h
    rcases hit : unescapeIntoRun t with _ | ⟨_ | v⟩ <;> rw [hit] at h <;> simp [Except.map] at h
    · subst h
      obtain ⟨hf, hg⟩ := ih hit
      exact ⟨hf, good_eq_false_cases a b t hg⟩
  | case4 c rest hc hshort =>
    rw [unescapeIntoRun.eq_def] at h
    rcases rest with _ | ⟨x, _ | ⟨y, t⟩⟩ <;> simp [hc] at h
    exact absurd rfl (hshort x y t)
  | case5 c rest hc ih =>
    simp only [beq_iff_eq] at hc
    rw [unescapeIntoRun.eq_def] at h
    simp [hc] at h
    rcases hit : unescapeIntoRun rest with _ | ⟨_ | v⟩ <;> rw [hit] at h <;> simp [Except.map] at h
    · subst h
      obtain ⟨hf, hg⟩ := ih hit
      exact ⟨hf, by rw [goodPercents_cons_ne37 c rest hc]; exact hg⟩

/-- When the scan reports no error, unescapeInto cannot panic. -/
theorem scan_none_into_some (s : GoStr) (h : (scanPercents s).2 = none) :
    unescapeIntoRun s ≠ none := by
  induction s using unescapeIntoRun.induct with
  | case1 => simp [unescapeIntoRun]
  | case2 c hc a b t gB lB herr =>
    simp only [beq_iff_eq] at hc
    subst hc
    rw [unescapeIntoRun.eq_def]
    simp [herr]
  | case3 c hc a b t gB lB herr ih =>
    simp only [beq_iff_eq] at hc
    subst hc
    rw [scanPercents.eq_def] at h
    simp at h
    rw [unescapeIntoRun.eq_def]
    simp [herr]
    rcases hit : unescapeIntoRun t with _ | r
    · exact absurd hit (ih h)
    · simp [Except.map]
  | case4 c rest hc hshort =>
    exfalso
    rw [scanPercents.eq_def] at h
    rcases rest with _ | ⟨x, _ | ⟨y, t⟩⟩ <;> simp [hc] at h
    exact absurd rfl (hshort x y t)
  | case5 c rest hc ih =>
    simp only [beq_iff_eq] at hc
    rw [scanPercents.eq_def] at h
    simp [hc] at h
    rw [unescapeIntoRun.eq_def]
    simp [hc]
    rcases hit : unescapeIntoRun rest with _ | r
    · exact absurd hit (ih h)
    · simp [Except.map]

/-- A successful unescapeInto run implies the input is well-formed. -/
theorem into_ok_good (s : GoStr) :
    ∀ v, unescapeIntoRun s = some (.ok v) → goodPercents s = true := by
  induction s using unescapeIntoRun.induct with
  | case1 => intro v h; decide
  | case2 c hc a b t gB lB herr =>
    intro v h
    rw [unescapeIntoRun.eq_def] at h
    simp [hc, herr] at h
  | case3 c hc a b t gB lB herr ih =>
    intro v h
    simp only [beq_iff_eq] at hc
    subst hc
    rw [unescapeIntoRun.eq_def] at h
    simp [herr] at h
    rcases hit : unescapeIntoRun t with _ | ⟨e | w⟩ <;> rw [hit] at h <;> simp [Except.map] at h
    have hhex : (isHexDigit a && isHexDigit b) = true := by
      rcases Bool.eq_false_or_eq_true (isHexDigit a) with ha | ha
      · rcases Bool.eq_false_or_eq_true (isHexDigit b) with hb | hb
        · simp [ha, hb]
        · exact absurd ((hexErrBit_iff a b).2 (Or.inr hb)) herr
      · exact absurd ((hexErrBit_iff a b).2 (Or.inl ha)) herr
    rw [goodPercents_triplet a b t (by simp [Bool.and_eq_true] at hhex; exact hhex.1)
      (by simp [Bool.and_eq_true] at hhex; exact hhex.2)]
    exact ih w hit
  | case4 c rest hc hshort =>
    intro v h
    rw [unescapeIntoRun.eq_def] at h
    rcases rest with _ | ⟨x, _ | ⟨y, t⟩⟩ <;> simp [hc] at h
    exact absurd rfl (hshort x y t)
  | case5 c rest hc ih =>
    intro v h
    simp only [beq_iff_eq] at hc
    rw [unescapeIntoRun.eq_def] at h
    simp [hc] at h
    rcases hit : unescapeIntoRun rest with _ | ⟨e | w⟩ <;> rw [hit] at h <;> simp [Except.map] at h
    rw [goodPercents_cons_ne37 c rest hc]
    exact ih w hit


/-- C6: Unescape never panics, returns an error exactly when some percent
sign is not followed by two valid hexadecimal digits, every such error
carries a fragment of the claimed one-to-three byte shape, and on success it
returns the input with each triplet replaced by the byte it denotes and all
other bytes unchanged. -/
theorem c6_unescape_error_iff (s : GoStr) :
    ∃ r, Unescape s = some r ∧
      ((∃ e, r = .error e) ↔ goodPercents s = false) ∧
      (∀ e, r = .error e → fragShape e.frag = true) ∧
      (goodPercents s = true → r = .ok (specDecodeTriplets s)) := by
  rcases hscan : (scanPercents s).2 with _ | f
  · by_cases hcnt : (scanPercents s).1 = 0
    · have hno := count0_no37 s hcnt
      have hg := no37_good s hno
      refine ⟨.ok s, ?_, ?_, ?_, ?_⟩
      · simp [Unescape, hscan, hcnt]
      · constructor
        · rintro ⟨e, he⟩
          cases he
        · intro hf
          rw [hg] at hf
          cases hf
      · intro e he
        cases he
      · intro _
        rw [no37_specDecode s hno]
    · rcases hinto : unescapeIntoRun s with _ | r
      · exact absurd hinto (scan_none_into_some s hscan)
      · refine ⟨r, ?_, ?_, ?_, ?_⟩
        · simp [Unescape, hscan, hcnt, hinto]
        · constructor
          · rintro ⟨e, he⟩
            subst he
            exact (into_err s e hinto).2
          · intro hf
            rcases r with e | v
            · exact ⟨e, rfl⟩
            · rw [into_ok_good s v hinto] at hf
              cases hf
        · intro e he
          subst he
          exact (into_err s e hinto).1
        · intro hgood
          obtain ⟨_, h2⟩ := good_scan_into s hgood
          rw [hinto] at h2
          injection h2
  · refine ⟨.error ⟨f⟩, ?_, ?_, ?_, ?_⟩
    · simp [Unescape, hscan]
    · constructor
      · intro _
        exact (scan_err s f hscan).2
      · intro _
        exact ⟨⟨f⟩, rfl⟩
    · intro e he
      injection he with h3
      rw [← h3]
      exact (scan_err s f hscan).1
    · intro hgood
      rw [(scan_err s f hscan).2] at hgood
      cases hgood

/-- C6 witness: the theorem applied to a malformed concrete input. -/
theorem c6_unescape_error_iff_witness :
    ∃ r, Unescape (bytes "bark%2y") = some r ∧
      ((∃ e, r = .error e) ↔ goodPercents (bytes "bark%2y") = false) ∧
      (∀ e, r = .error e → fragShape e.frag = true) ∧
      (goodPercents (bytes "bark%2y") = true →
        r = .ok (specDecodeTriplets (bytes "bark%2y"))) :=
  c6_unescape_error_iff (bytes "bark%2y")

/-- A byte failing a predicate is not in a list satisfying it everywhere. -/
theorem not_mem_of_all (s : GoStr) (p : Nat → Bool) (b : Nat)
    (hall : s.all p = true) (hb : p b = false) : b ∉ s := by
  intro hm
  rw [List.all_eq_true] at hall
  rw [hall b hm] at hb
  cases hb

/-- goIndex misses a one-byte separator absent from the string. -/
theorem goIndex_not_found (s : GoStr) (b : Nat) (h : b ∉ s) : goIndex s [b] = none := by
  induction s with
  | nil => rw [goIndex.eq_def]; simp [List.isPrefixOf]
  | cons c t ih =>
    simp only [List.mem_cons, not_or] at h
    rw [goIndex.eq_def]
    have hcb : (b == c) = false := beq_eq_false_iff_ne.mpr h.1
    simp [List.isPrefixOf, hcb, ih h.2]

/-- goIndex finds the first occurrence of a one-byte separator. -/
theorem goIndex_found (pre post : GoStr) (b : Nat) (h : b ∉ pre) :
    goIndex (pre ++ b :: post) [b] = some pre.length := by
  induction pre with
  | nil => rw [goIndex.eq_def]; simp [List.isPrefixOf]
  | cons c t ih =>
    simp only [List.mem_cons, not_or] at h
    rw [goIndex.eq_def]
    have hcb : (b == c) = false := beq_eq_false_iff_ne.mpr h.1
    simp [List.isPrefixOf, hcb, ih h.2]

/-- goCut on an absent one-byte separator returns the whole string. -/
theorem goCut_not_found (s : GoStr) (b : Nat) (h : b ∉ s) :
    goCut s [b] = (s, [], false) := by
  simp [goCut, goIndex_not_found s b h]

/-- goCut splits at the first occurrence of a one-byte separator. -/
theorem goCut_found (pre post : GoStr) (b : Nat) (h : b ∉ pre) :
    goCut (pre ++ b :: post) [b] = (pre, post, true) := by
  have hd : List.drop (pre.length + 1) (pre ++ b :: post) = post := by
    rw [show pre ++ b :: post = (pre ++ [b]) ++ post by simp,
      show pre.length + 1 = (pre ++ [b]).length by simp]
    exact List.drop_left _ _
  simp [goCut, goIndex_found pre post b h, List.take_left, hd]

/-- goSplit on an absent one-byte separator yields a single piece. -/
theorem goSplit_no_sep (s : GoStr) (b : Nat) (h : b ∉ s) : goSplit s [b] = [s] := by
  unfold goSplit
  rw [if_neg (by simp)]
  rw [goSplitAux.eq_def]
  simp [goIndex_not_found s b h]

/-- The Unescape scan is trivial on strings without percent signs. -/
theorem no37_scan (s : GoStr) (h : 37 ∉ s) : scanPercents s = (0, none) := by
  induction s with
  | nil => rfl
  | cons c t ih =>
    simp only [List.mem_cons, not_or] at h
    rw [scanPercents.eq_def]
    have : (c == 37) = false := beq_eq_false_iff_ne.mpr (fun hc => h.1 hc.symm)
    simp [this, ih h.2]

/-- Unescape is the identity on strings without percent signs. -/
theorem Unescape_no37 (s : GoStr) (h : 37 ∉ s) : Unescape s = some (.ok s) := by
  simp [Unescape, no37_scan s h]

/-- escape returns its input unchanged when no byte needs escaping. -/
theorem escape_id (s : GoStr) (mode : Encoding)
    (h : s.all (fun b => !(mode.shouldEscape b)) = true) : escape s mode = some s := by
  unfold escape
  have hz : s.countP (fun c => mode.shouldEscape c) = 0 := by
    rw [List.countP_eq_zero]
    intro a ha
    rw [List.all_eq_true] at h
    simpa using h a ha
  simp [hz]

/-- escape in user-info mode is the identity on user-safe bytes. -/
theorem escape_user_id (s : GoStr) (h : s.all userSafeByte = true) :
    escape s encodeUserPassword = some s := by
  refine escape_id s _ ?_
  rw [List.all_eq_true] at h ⊢
  intro a ha
  simpa [userSafeByte] using h a ha

/-- escape in host mode is the identity on host-safe bytes. -/
theorem escape_host_id (s : GoStr) (h : s.all hostSafeByte = true) :
    escape s encodeHost = some s := by
  refine escape_id s _ ?_
  rw [List.all_eq_true] at h ⊢
  intro a ha
  have := h a ha
  unfold hostSafeByte at this
  simp only [Bool.and_eq_true] at this
  simp [this.1.1.1]

/-- escapeInto copies query-safe bytes unchanged. -/
theorem escapeInto_id (s : GoStr) (h : s.all querySafeByte = true) : escapeInto s = s := by
  induction s with
  | nil => rfl
  | cons c t ih =>
    simp only [List.all_cons, Bool.and_eq_true] at h
    rw [escapeInto.eq_def]
    have hc : encodeQueryComponent.shouldEscape c = false := by
      have := h.1
      unfold querySafeByte at this
      simpa using this
    simp [hc, ih h.2]

/-- SplitHostPort is trivial for a non-empty host without colons or
brackets. -/
theorem splitHostPort_safe (u : URI) (hsafe : u.host.all hostSafeByte = true)
    (hne : u.host ≠ []) : u.SplitHostPort = (u.host, [], none) := by
  obtain ⟨c, t, hct⟩ := List.exists_cons_of_ne_nil hne
  unfold URI.SplitHostPort
  rw [hct] at hsafe ⊢
  simp only [List.all_cons, Bool.and_eq_true] at hsafe
  have h58 : (58 : Nat) ∉ c :: t := by
    intro hm
    rcases List.mem_cons.mp hm with h1 | h1
    · rw [← h1] at hsafe
      exact absurd hsafe.1 (by decide)
    · exact absurd (List.all_eq_true.mp hsafe.2 58 h1) (by decide)
  have hcount : (c :: t).count 58 = 0 := List.count_eq_zero.mpr h58
  have hc91 : (c == 91) = false := by
    refine beq_eq_false_iff_ne.mpr ?_
    intro hc
    subst hc
    exact absurd hsafe.1 (by decide)
  simp [hc91, hcount]

/-- Query-safe strings contain no percent sign. -/
theorem querySafe_no37 (k : GoStr) (hk : k.all querySafeByte = true) : (37 : Nat) ∉ k :=
  not_mem_of_all _ _ _ hk (by decide)

/-- Decoding a single key=value pair over query-safe bytes yields the
singleton store. -/
theorem decode_single (k v : GoStr) (sepb : Nat)
    (hk : k.all querySafeByte = true) (hv : v.all querySafeByte = true)
    (hsep : querySafeByte sepb = false) (hne : sepb ≠ 61) :
    eagerDecode (k ++ 61 :: v) [sepb] = some (.ok (.pairs [(k, [v])])) := by
  have hsepk : sepb ∉ k := not_mem_of_all _ _ _ hk hsep
  have hsepv : sepb ∉ v := not_mem_of_all _ _ _ hv hsep
  have hsepall : sepb ∉ k ++ 61 :: v := by
    intro hm
    rcases List.mem_append.mp hm with h1 | h1
    · exact hsepk h1
    · rcases List.mem_cons.mp h1 with h2 | h2
      · exact hne h2
      · exact hsepv h2
  have h61k : (61 : Nat) ∉ k := not_mem_of_all _ _ _ hk (by decide)
  unfold eagerDecode DecodeURLValues
  rw [goSplit_no_sep _ _ hsepall]
  rw [DecodeURLValues.go.eq_def]
  rw [show bytes "=" = [61] from rfl]
  dsimp only
  rw [goCut_found k v 61 h61k]
  dsimp only
  rw [Unescape_no37 k (querySafe_no37 k hk)]
  dsimp only
  rw [Unescape_no37 v (querySafe_no37 v hv)]
  dsimp only
  rw [DecodeURLValues.go.eq_def]
  rfl

/-- Encoding a singleton store of query-safe bytes yields the key=value
pair. -/
theorem encode_single (k v : GoStr)
    (hk : k.all querySafeByte = true) (hv : v.all querySafeByte = true) :
    EncodeURLValues [(k, [v])] = some (k ++ 61 :: v) := by
  have hkc : k.countP (fun c => encodeQueryComponent.shouldEscape c) = 0 := by
    rw [List.countP_eq_zero]
    intro a ha
    have := List.all_eq_true.mp hk a ha
    unfold querySafeByte at this
    simpa using this
  have hvc : v.countP (fun c => encodeQueryComponent.shouldEscape c) = 0 := by
    rw [List.countP_eq_zero]
    intro a ha
    have := List.all_eq_true.mp hv a ha
    unfold querySafeByte at this
    simpa using this
  unfold EncodeURLValues
  simp only [List.length_cons, List.length_nil, List.map_cons, List.map_nil,
    List.sum_cons, List.sum_nil, hkc, hvc]
  rw [if_neg (by simp)]
  rw [if_neg (by push_cast; omega)]
  simp [sortStrings, sortInsert, kvLookup, List.intercalate,
    escapeInto_id k hk, escapeInto_id v hv]

/-- Membership bound for a key=value pair. -/
theorem mem_split_pair (b : Nat) (k v : GoStr) (hk : b ∉ k) (hv : b ∉ v) (hb : b ≠ 61) :
    b ∉ k ++ 61 :: v := by
  intro hm
  rcases List.mem_append.mp hm with h1 | h1
  · exact hk h1
  · rcases List.mem_cons.mp h1 with h2 | h2
    · exact hb h2
    · exact hv h2

/-- Every byte any mode escapes, the query-component table escapes too. -/
theorem query_escape_superset (mode : Encoding) (b : Nat)
    (h : mode.shouldEscape b = true) : encodeQueryComponent.shouldEscape b = true := by
  unfold Encoding.shouldEscape at h ⊢
  by_cases h1 : isAlphaNum b
  · simp [h1] at h
  · by_cases h2 : markByte b
    · rcases mode <;> simp [h1, h2] at h
    · rcases mode <;> simp [h1, h2] at h ⊢

/-- A hex digit of the upper-case table decodes back to its value. -/
theorem upperhex_check (d : Nat) (h : d ≤ 15) :
    checkValidHexCharacter (upperhexAt d) = d := by
  interval_cases d <;> decide

/-- Hex digits of the upper-case table are query-safe. -/
theorem upperhex_qsafe (d : Nat) (h : d ≤ 15) :
    querySafeByte (upperhexAt d) = true := by
  interval_cases d <;> decide

/-- The length escapeInto writes: one byte per input byte plus two per
query-escaped byte. -/
theorem escapeInto_length (s : GoStr) :
    (escapeInto s).length =
      s.length + 2 * s.countP (fun c => encodeQueryComponent.shouldEscape c) := by
  induction s with
  | nil => rfl
  | cons c t ih =>
    rw [escapeInto.eq_def]
    by_cases hc : encodeQueryComponent.shouldEscape c = true
    · simp [hc, ih, List.countP_cons]
      omega
    · simp [hc, ih, List.countP_cons]
      omega

/-- escapeInto of a non-empty string is non-empty. -/
theorem escapeInto_ne_nil (s : GoStr) (h : s ≠ []) : escapeInto s ≠ [] := by
  rcases s with _ | ⟨c, t⟩
  · exact absurd rfl h
  · simp only [escapeInto]
    split <;> simp

/-- Every byte escapeInto emits is query-safe or the percent sign. -/
theorem mem_escapeInto (s : GoStr) (b : Nat) (h256 : allBytes s = true)
    (hm : b ∈ escapeInto s) : querySafeByte b = true ∨ b = 37 := by
  induction s with
  | nil => cases hm
  | cons c t ih =>
    simp only [allBytes, List.all_cons, Bool.and_eq_true, decide_eq_true_eq] at h256
    have ht : allBytes t = true := by simp [allBytes, h256.2]
    simp only [escapeInto] at hm
    by_cases hc : encodeQueryComponent.shouldEscape c = true
    · rw [if_pos hc] at hm
      rcases List.mem_cons.mp hm with h1 | h1
      · exact Or.inr h1
      rcases List.mem_cons.mp h1 with h2 | h2
      · exact Or.inl (h2 ▸ upperhex_qsafe (c / 16) (by omega))
      rcases List.mem_cons.mp h2 with h3 | h3
      · exact Or.inl (h3 ▸ upperhex_qsafe (c % 16) (by omega))
      · exact ih ht h3
    · rw [if_neg hc] at hm
      rcases List.mem_cons.mp hm with h1 | h1
      · subst h1
        exact Or.inl (by simpa [querySafeByte] using hc)
      · exact ih ht h1

/-- A query-escaped byte other than the percent sign never appears in
escapeInto output. -/
theorem not_mem_escapeInto (s : GoStr) (d : Nat) (h256 : allBytes s = true)
    (hq : querySafeByte d = false) (hd : d ≠ 37) : d ∉ escapeInto s := by
  intro hm
  rcases mem_escapeInto s d h256 hm with h1 | h1
  · rw [h1] at hq
    cases hq
  · exact hd h1

/-- The Unescape scan over escapeInto output counts the escaped bytes and
reports no error. -/
theorem scan_escapeInto (s : GoStr) :
    scanPercents (escapeInto s) =
      (s.countP (fun c => encodeQueryComponent.shouldEscape c), none) := by
  induction s with
  | nil => rfl
  | cons c t ih =>
    simp only [escapeInto]
    by_cases hc : encodeQueryComponent.shouldEscape c = true
    · rw [if_pos hc]
      rw [scanPercents.eq_def]
      simp [ih, List.countP_cons, hc]
    · rw [if_neg hc]
      have hc37 : (c == 37) = false := by
        refine beq_eq_false_iff_ne.mpr ?_
        intro he
        subst he
        exact hc (by decide)
      rw [scanPercents.eq_def]
      simp [hc37, ih, List.countP_cons, hc]

/-- unescapeInto inverts escapeInto on genuine bytes. -/
theorem into_escapeInto (s : GoStr) (h256 : allBytes s = true) :
    unescapeIntoRun (escapeInto s) = some (.ok s) := by
  induction s with
  | nil => rfl
  | cons c t ih =>
    simp only [allBytes, List.all_cons, Bool.and_eq_true, decide_eq_true_eq] at h256
    have ht : allBytes t = true := by simp [allBytes, h256.2]
    have hlt : c < 256 := h256.1
    simp only [escapeInto]
    by_cases hc : encodeQueryComponent.shouldEscape c = true
    · rw [if_pos hc]
      rw [unescapeIntoRun.eq_def]
      have hhi : checkValidHexCharacter (upperhexAt (c / 16)) = c / 16 :=
        upperhex_check (c / 16) (by omega)
      have hlo : checkValidHexCharacter (upperhexAt (c % 16)) = c % 16 :=
        upperhex_check (c % 16) (by omega)
      have herr : ¬ ((checkValidHexCharacter (upperhexAt (c / 16)) |||
          checkValidHexCharacter (upperhexAt (c % 16))) &&& 16 ≠ 0) := by
        rw [hhi, hlo]
        rw [lorBit (c / 16) (c % 16) (by omega) (by omega)]
        omega
      simp [herr, ih ht, Except.map]
      rw [hhi, hlo]
      omega
    · rw [if_neg hc]
      have hc37 : (c == 37) = false := by
        refine beq_eq_false_iff_ne.mpr ?_
        intro he
        subst he
        exact hc (by decide)
      rw [unescapeIntoRun.eq_def]
      simp [hc37, ih ht, Except.map]

/-- Unescape inverts escapeInto on genuine bytes. -/
theorem unescape_escapeInto (s : GoStr) (h256 : allBytes s = true) :
    Unescape (escapeInto s) = some (.ok s) := by
  unfold Unescape
  rw [scan_escapeInto s]
  dsimp only
  by_cases hz : s.countP (fun c => encodeQueryComponent.shouldEscape c) = 0
  · have hall : s.all querySafeByte = true := by
      rw [List.all_eq_true]
      intro a ha
      have := List.countP_eq_zero.mp hz a ha
      simpa [querySafeByte] using this
    simp [hz, escapeInto_id s hall]
  · simp only [beq_iff_eq, hz, if_neg, if_false]
    exact into_escapeInto s h256

/-- When the mode escapes everything the query table escapes among the
input bytes, escape succeeds and returns exactly the escapeInto output. -/
theorem escape_canonical (s : GoStr) (mode : Encoding)
    (hsub : ∀ b ∈ s, encodeQueryComponent.shouldEscape b = true → mode.shouldEscape b = true) :
    escape s mode = some (escapeInto s) := by
  have hcong : s.countP (fun c => mode.shouldEscape c) =
      s.countP (fun c => encodeQueryComponent.shouldEscape c) := by
    refine List.countP_congr ?_
    intro a ha
    rcases hq : encodeQueryComponent.shouldEscape a with _ | _
    · rcases hmo : mode.shouldEscape a with _ | _
      · exact Iff.rfl
      · rw [query_escape_superset mode a hmo] at hq
        simp at hq
    · simp [hsub a ha hq]
  unfold escape
  rw [hcong]
  by_cases hz : s.countP (fun c => encodeQueryComponent.shouldEscape c) = 0
  · have hall : s.all querySafeByte = true := by
      rw [List.all_eq_true]
      intro a ha
      have := List.countP_eq_zero.mp hz a ha
      simpa [querySafeByte] using this
    simp [hz, escapeInto_id s hall]
  · rw [if_neg (by simpa using hz)]
    rw [if_pos (by rw [escapeInto_length])]

/-- escape in user-info mode produces the escapeInto output on canonically
escapable user bytes. -/
theorem escape_user_canonical (u : GoStr) (h : u.all userCanonByte = true) :
    escape u encodeUserPassword = some (escapeInto u) := by
  refine escape_canonical u _ ?_
  intro b hb hq
  have := List.all_eq_true.mp h b hb
  simp only [userCanonByte, Bool.and_eq_true, Bool.or_eq_true, Bool.not_eq_true'] at this
  rcases this.2 with h1 | h1
  · rw [h1] at hq
    simp at hq
  · exact h1

/-- Canonically escapable user bytes are genuine bytes. -/
theorem userCanon_bytes (u : GoStr) (h : u.all userCanonByte = true) :
    allBytes u = true := by
  simp only [allBytes, List.all_eq_true, decide_eq_true_eq]
  intro a ha
  have := List.all_eq_true.mp h a ha
  simp only [userCanonByte, Bool.and_eq_true, decide_eq_true_eq] at this
  exact this.1

/-- The facts the parser and serializer need about a canonical user: its
rendering is non-empty, contains neither the at sign nor a colon, unescapes
to the decoded user, and is exactly what escape produces from it. -/
theorem renderUser_spec (u : GoStr) (hne : u ≠ [])
    (hcond : (u.all userSafeByte || u.all userCanonByte) = true) :
    renderUser u ≠ [] ∧ (64 : Nat) ∉ renderUser u ∧ (58 : Nat) ∉ renderUser u ∧
    Unescape (renderUser u) = some (.ok u) ∧
    escape u encodeUserPassword = some (renderUser u) := by
  by_cases hu : u.all userSafeByte = true
  · have hr : renderUser u = u := by simp [renderUser, hu]
    rw [hr]
    exact ⟨hne,
      not_mem_of_all u userSafeByte 64 hu (by decide),
      not_mem_of_all u userSafeByte 58 hu (by decide),
      Unescape_no37 u (not_mem_of_all u userSafeByte 37 hu (by decide)),
      escape_user_id u hu⟩
  · have hcanon : u.all userCanonByte = true := by
      rcases Bool.or_eq_true_iff.mp hcond with h1 | h1
      · exact absurd h1 hu
      · exact h1
    have h256 : allBytes u = true := userCanon_bytes u hcanon
    have hr : renderUser u = escapeInto u := by simp [renderUser, hu]
    rw [hr]
    exact ⟨escapeInto_ne_nil u hne,
      not_mem_escapeInto u 64 h256 (by decide) (by decide),
      not_mem_escapeInto u 58 h256 (by decide) (by decide),
      unescape_escapeInto u h256,
      by rw [escape_user_canonical u hcanon]⟩

/-- A host-legal byte is not a delimiter the parser cuts on. -/
theorem host_legal_not (b : Nat) (h : encodeHost.shouldEscape b = false) :
    b ≠ 63 ∧ b ≠ 64 ∧ b ≠ 37 := by
  refine ⟨?_, ?_, ?_⟩ <;> intro he <;> subst he <;> exact absurd h (by decide)

/-- The delimiter and escape facts shared by every canonical host text. -/
theorem hostOuter_facts (s : GoStr) (hall : s.all hostOuterByte = true) :
    (64 : Nat) ∉ s ∧ (63 : Nat) ∉ s ∧ (59 : Nat) ∉ s ∧ (37 : Nat) ∉ s ∧
    s.all (fun b => !(encodeHost.shouldEscape b)) = true := by
  refine ⟨not_mem_of_all s hostOuterByte 64 hall (by decide),
    not_mem_of_all s hostOuterByte 63 hall (by decide),
    not_mem_of_all s hostOuterByte 59 hall (by decide),
    not_mem_of_all s hostOuterByte 37 hall (by decide), ?_⟩
  rw [List.all_eq_true] at hall ⊢
  intro a ha
  have := hall a ha
  simp only [hostOuterByte, Bool.and_eq_true] at this
  exact this.1

/-- hostSafeByte strings are made of outer-host bytes. -/
theorem hostSafe_outer (s : GoStr) (h : s.all hostSafeByte = true) :
    s.all hostOuterByte = true := by
  rw [List.all_eq_true] at h ⊢
  intro a ha
  have := h a ha
  simp only [hostSafeByte, Bool.and_eq_true] at this
  simp [hostOuterByte, this.1.1.1, this.1.2]

/-- hostPortByte strings are made of outer-host bytes. -/
theorem hostPort_outer (s : GoStr) (h : s.all hostPortByte = true) :
    s.all hostOuterByte = true := by
  rw [List.all_eq_true] at h ⊢
  intro a ha
  have := h a ha
  simp only [hostPortByte, Bool.and_eq_true] at this
  simp [hostOuterByte, this.1.1.1.1, this.1.1.2]

/-- ipByte strings are made of outer-host bytes. -/
theorem ip_outer (s : GoStr) (h : s.all ipByte = true) :
    s.all hostOuterByte = true := by
  rw [List.all_eq_true] at h ⊢
  intro a ha
  have := h a ha
  simp only [ipByte, Bool.and_eq_true] at this
  simp [hostOuterByte, this.1.1.1, this.1.1.2]

/-- Every canonical host text is non-empty, avoids the cut delimiters and
the percent sign, and consists of host-legal bytes. -/
theorem hostText_facts (ch : CanonHost) (h : canonHostOK ch = true) :
    hostText ch ≠ [] ∧ (64 : Nat) ∉ hostText ch ∧ (63 : Nat) ∉ hostText ch ∧
    (59 : Nat) ∉ hostText ch ∧ (37 : Nat) ∉ hostText ch ∧
    (hostText ch).all (fun b => !(encodeHost.shouldEscape b)) = true := by
  have houter : (hostText ch).all hostOuterByte = true ∧ hostText ch ≠ [] := by
    rcases ch with hn | ⟨hn, pt⟩ | ip | ⟨ip, pt⟩ <;>
      simp only [canonHostOK, Bool.and_eq_true, Bool.not_eq_true',
        List.isEmpty_eq_false, beq_iff_eq] at h
    · exact ⟨hostSafe_outer hn h.2, by simp [hostText, h.1]⟩
    · refine ⟨?_, by simp [hostText]⟩
      simp only [hostText, List.all_append, List.all_cons, Bool.and_eq_true]
      exact ⟨hostPort_outer hn h.1, by decide, hostPort_outer pt h.2⟩
    · refine ⟨?_, by simp [hostText]⟩
      simp only [hostText, List.all_cons, List.all_append, Bool.and_eq_true]
      exact ⟨by decide, ip_outer ip h.1, by decide⟩
    · refine ⟨?_, by simp [hostText]⟩
      simp only [hostText, List.all_cons, List.all_append, Bool.and_eq_true]
      exact ⟨by decide, ip_outer ip h.1, by decide, by decide, hostPort_outer pt h.2⟩
  obtain ⟨h1, h2, h3, h4, h5⟩ := hostOuter_facts (hostText ch) houter.1
  exact ⟨houter.2, h1, h2, h3, h4, h5⟩

/-- indexByte misses a byte absent from the string. -/
theorem indexByte_not_found (s : GoStr) (b : Nat) (h : b ∉ s) : indexByte s b = none := by
  induction s with
  | nil => rfl
  | cons c t ih =>
    simp only [List.mem_cons, not_or] at h
    have hcb : (c == b) = false := beq_eq_false_iff_ne.mpr (fun he => h.1 he.symm)
    simp [indexByte, hcb, ih h.2]

/-- indexByte finds the first occurrence of a byte. -/
theorem indexByte_found (pre post : GoStr) (b : Nat) (h : b ∉ pre) :
    indexByte (pre ++ b :: post) b = some pre.length := by
  induction pre with
  | nil => simp [indexByte]
  | cons c t ih =>
    simp only [List.mem_cons, not_or] at h
    have hcb : (c == b) = false := beq_eq_false_iff_ne.mpr (fun he => h.1 he.symm)
    simp [indexByte, hcb, ih h.2]

/-- net.SplitHostPort accepts a name:port split when neither half contains a
colon or bracket. -/
theorem netSplit_withPort (hn pt : GoStr) (hhn : hn.all hostPortByte = true)
    (hpt : pt.all hostPortByte = true) :
    netSplitHostPort (hn ++ 58 :: pt) = (hn, pt, none) := by
  have h58hn : (58 : Nat) ∉ hn := not_mem_of_all _ _ _ hhn (by decide)
  have h58pt : (58 : Nat) ∉ pt := not_mem_of_all _ _ _ hpt (by decide)
  have h91hn : (91 : Nat) ∉ hn := not_mem_of_all _ _ _ hhn (by decide)
  have h91pt : (91 : Nat) ∉ pt := not_mem_of_all _ _ _ hpt (by decide)
  have h93hn : (93 : Nat) ∉ hn := not_mem_of_all _ _ _ hhn (by decide)
  have h93pt : (93 : Nat) ∉ pt := not_mem_of_all _ _ _ hpt (by decide)
  have hidx : indexByte ((hn ++ 58 :: pt).reverse) 58 = some pt.length := by
    rw [show (hn ++ 58 :: pt).reverse = pt.reverse ++ 58 :: hn.reverse by simp]
    simpa using indexByte_found pt.reverse hn.reverse 58 (by simpa using h58pt)
  have hlast : lastIndexByte (hn ++ 58 :: pt) 58 = some hn.length := by
    unfold lastIndexByte
    rw [hidx]
    simp
  have hhead : ((hn ++ 58 :: pt).headD 0 == 91) = false := by
    rcases hn with _ | ⟨c, t⟩
    · simp
    · have : c ≠ 91 := fun he => h91hn (by simp [he])
      simp [beq_eq_false_iff_ne, this]
  have h91all : (91 : Nat) ∉ hn ++ 58 :: pt := by
    intro hm
    rcases List.mem_append.mp hm with h1 | h1
    · exact h91hn h1
    · rcases List.mem_cons.mp h1 with h2 | h2
      · cases h2
      · exact h91pt h2
  have h93all : (93 : Nat) ∉ hn ++ 58 :: pt := by
    intro hm
    rcases List.mem_append.mp hm with h1 | h1
    · exact h93hn h1
    · rcases List.mem_cons.mp h1 with h2 | h2
      · cases h2
      · exact h93pt h2
  have hdrop : (hn ++ 58 :: pt).drop (hn.length + 1) = pt := by
    rw [show hn ++ 58 :: pt = (hn ++ [58]) ++ pt by simp,
      show hn.length + 1 = (hn ++ [58]).length by simp]
    exact List.drop_left _ _
  unfold netSplitHostPort
  rw [hlast]
  dsimp only
  rw [hhead]
  simp only [Bool.false_eq_true, if_false, List.take_left]
  rw [indexByte_not_found hn 58 h58hn, indexByte_not_found _ 91 h91all,
    indexByte_not_found _ 93 h93all]
  simp [hdrop]

/-- net.SplitHostPort accepts a bracketed literal with a port when the
literal avoids brackets and the port avoids colons and brackets. -/
theorem netSplit_bracketPort (ip pt : GoStr) (hip : ip.all ipByte = true)
    (hpt : pt.all hostPortByte = true) :
    netSplitHostPort (91 :: (ip ++ 93 :: 58 :: pt)) = (ip, pt, none) := by
  have h58pt : (58 : Nat) ∉ pt := not_mem_of_all _ _ _ hpt (by decide)
  have h91ip : (91 : Nat) ∉ ip := not_mem_of_all _ _ _ hip (by decide)
  have h91pt : (91 : Nat) ∉ pt := not_mem_of_all _ _ _ hpt (by decide)
  have h93ip : (93 : Nat) ∉ ip := not_mem_of_all _ _ _ hip (by decide)
  have h93pt : (93 : Nat) ∉ pt := not_mem_of_all _ _ _ hpt (by decide)
  have hidx : indexByte ((91 :: (ip ++ 93 :: 58 :: pt)).reverse) 58 = some pt.length := by
    rw [show (91 :: (ip ++ 93 :: 58 :: pt)).reverse =
      pt.reverse ++ 58 :: (93 :: (ip.reverse ++ [91])) by simp]
    simpa using indexByte_found pt.reverse (93 :: (ip.reverse ++ [91])) 58
      (by simpa using h58pt)
  have hlast : lastIndexByte (91 :: (ip ++ 93 :: 58 :: pt)) 58 = some (ip.length + 2) := by
    unfold lastIndexByte
    rw [hidx]
    simp
    omega
  have hidx93 : indexByte (91 :: (ip ++ 93 :: 58 :: pt)) 93 = some (ip.length + 1) := by
    have := indexByte_found (91 :: ip) (58 :: pt) 93 (by
      intro hm
      rcases List.mem_cons.mp hm with h1 | h1
      · cases h1
      · exact h93ip h1)
    simpa using this
  have hlen : (91 :: (ip ++ 93 :: 58 :: pt)).length = ip.length + pt.length + 3 := by
    simp
    omega
  have hne1 : ((ip.length + 1) + 1 == (91 :: (ip ++ 93 :: 58 :: pt)).length) = false := by
    rw [hlen, beq_eq_false_iff_ne]
    omega
  have heq2 : ((ip.length + 1) + 1 == ip.length + 2) = true := by
    rw [beq_iff_eq]
  have h91drop : (91 : Nat) ∉ (91 :: (ip ++ 93 :: 58 :: pt)).drop 1 := by
    simp only [List.drop_one, List.tail_cons]
    intro hm
    rcases List.mem_append.mp hm with h1 | h1
    · exact h91ip h1
    · rcases List.mem_cons.mp h1 with h2 | h2
      · cases h2
      · rcases List.mem_cons.mp h2 with h3 | h3
        · cases h3
        · exact h91pt h3
  have hdropE : (91 :: (ip ++ 93 :: 58 :: pt)).drop (ip.length + 1 + 1) = 58 :: pt := by
    rw [show 91 :: (ip ++ 93 :: 58 :: pt) = ((91 :: ip) ++ [93]) ++ (58 :: pt) by simp,
      show ip.length + 1 + 1 = ((91 :: ip) ++ [93]).length by simp]
    exact List.drop_left _ _
  have h93dropE : (93 : Nat) ∉ (58 : Nat) :: pt := by
    intro hm
    rcases List.mem_cons.mp hm with h1 | h1
    · cases h1
    · exact h93pt h1
  have htake : (91 :: (ip ++ 93 :: 58 :: pt)).take (ip.length + 1) = 91 :: ip := by
    rw [show 91 :: (ip ++ 93 :: 58 :: pt) = (91 :: ip) ++ (93 :: 58 :: pt) by simp,
      show ip.length + 1 = (91 :: ip).length by simp]
    exact List.take_left _ _
  have hdropI : (91 :: (ip ++ 93 :: 58 :: pt)).drop (ip.length + 2 + 1) = pt := by
    rw [show 91 :: (ip ++ 93 :: 58 :: pt) = ((91 :: ip) ++ [93, 58]) ++ pt by simp,
      show ip.length + 2 + 1 = ((91 :: ip) ++ [93, 58]).length by simp]
    exact List.drop_left _ _
  unfold netSplitHostPort
  rw [hlast]
  dsimp only
  rw [show ((91 :: (ip ++ 93 :: 58 :: pt)).headD 0 == 91) = true by simp]
  simp only [if_true]
  rw [hidx93]
  dsimp only
  rw [hne1]
  simp only [Bool.false_eq_true, if_false]
  rw [heq2]
  simp only [if_true]
  rw [indexByte_not_found _ 91 h91drop]
  rw [hdropE, indexByte_not_found _ 93 h93dropE]
  simp [htake, hdropI]

/-- SplitHostPort reports no error on any accepted canonical host, whatever
the other fields of the record hold. -/
theorem hostText_split (ch : CanonHost) (h : canonHostOK ch = true)
    (pr : Bool) (us ps : GoStr) (hp hpar hh : Bool) :
    (URI.SplitHostPort ⟨pr, us, ps, hostText ch, none, none, hp, hpar, hh⟩).2.2 = none := by
  rcases ch with hn | ⟨hn, pt⟩ | ip | ⟨ip, pt⟩ <;>
    simp only [canonHostOK, Bool.and_eq_true, Bool.not_eq_true',
      List.isEmpty_eq_false, beq_iff_eq] at h
  · rw [splitHostPort_safe ⟨pr, us, ps, hostText (.name hn), none, none, hp, hpar, hh⟩
      (by simpa [hostText] using h.2) (by simpa [hostText] using h.1)]
  · have h58hn : (58 : Nat) ∉ hn := not_mem_of_all _ _ _ h.1 (by decide)
    have h58pt : (58 : Nat) ∉ pt := not_mem_of_all _ _ _ h.2 (by decide)
    have h91hn : (91 : Nat) ∉ hn := not_mem_of_all _ _ _ h.1 (by decide)
    have hhead : ((hn ++ 58 :: pt).headD 0 == 91) = false := by
      rcases hn with _ | ⟨c, t⟩
      · simp
      · have : c ≠ 91 := fun he => h91hn (by simp [he])
        simp [beq_eq_false_iff_ne, this]
    have hcnthn : hn.count 58 = 0 := List.count_eq_zero.mpr h58hn
    have hcount : (hn ++ 58 :: pt).count 58 = pt.count 58 + 1 := by
      simp [List.count_append, List.count_cons, hcnthn]
    have hcntpt : pt.count 58 = 0 := List.count_eq_zero.mpr h58pt
    unfold URI.SplitHostPort
    simp only [hostText]
    rw [netSplit_withPort hn pt h.1 h.2]
    simp [hhead, hcount, hcntpt]
  · have hcount : (91 :: (ip ++ [93])).count 58 = ip.count 58 := by
      simp [List.count_cons, List.count_append]
    have hlast : (91 :: (ip ++ [93])).getLast? = some 93 := by
      rw [List.getLast?_eq_head?_reverse]
      simp
    unfold URI.SplitHostPort
    simp only [hostText]
    simp [hcount, hlast, h.2]
  · have h93pt : (93 : Nat) ∉ pt := not_mem_of_all _ _ _ h.2 (by decide)
    have hlast : ¬ ((91 :: (ip ++ 93 :: 58 :: pt)).getLast? = some 93) := by
      rw [List.getLast?_eq_head?_reverse]
      rw [show (91 :: (ip ++ 93 :: 58 :: pt)).reverse =
        pt.reverse ++ 58 :: (93 :: (ip.reverse ++ [91])) by simp]
      rcases hr : pt.reverse with _ | ⟨c, t⟩
      · simp
      · have hc : c ∈ pt := by
          rw [← List.mem_reverse, hr]
          simp
        have : c ≠ 93 := fun he => h93pt (he ▸ hc)
        simp [this]
    unfold URI.SplitHostPort
    simp only [hostText]
    rw [netSplit_bracketPort ip pt h.1 h.2]
    simp [hlast]

/-- A found goIndex position is inside the string. -/
theorem goIndex_lt (s : GoStr) (b : Nat) (i : Nat) (h : goIndex s [b] = some i) :
    i < s.length := by
  induction s generalizing i with
  | nil =>
    rw [goIndex.eq_def] at h
    simp [List.isPrefixOf] at h
  | cons c t ih =>
    rw [goIndex.eq_def] at h
    by_cases hp : ([b] : GoStr).isPrefixOf (c :: t) = true
    · simp [hp] at h
      simp only [List.length_cons]
      omega
    · simp [hp] at h
      obtain ⟨j, hj, hji⟩ := h
      have := ih j hj
      simp only [List.length_cons]
      omega

/-- goSplitAux ignores the exact fuel once it exceeds the input length. -/
theorem goSplitAux_irrel (b : Nat) :
    ∀ (n : Nat) (s : GoStr) (f1 f2 : Nat), s.length ≤ n →
      s.length < f1 → s.length < f2 →
      goSplitAux f1 s [b] = goSplitAux f2 s [b] := by
  intro n
  induction n with
  | zero =>
    intro s f1 f2 hs h1 h2
    have hnil : s = [] := List.length_eq_zero.mp (Nat.le_zero.mp hs)
    subst hnil
    rcases f1 with _ | g1
    · omega
    rcases f2 with _ | g2
    · omega
    rw [goSplitAux.eq_def, goSplitAux.eq_def]
    simp [goIndex_not_found [] b (by simp)]
  | succ n ih =>
    intro s f1 f2 hs h1 h2
    rcases f1 with _ | g1
    · omega
    rcases f2 with _ | g2
    · omega
    rw [goSplitAux.eq_def, goSplitAux.eq_def]
    dsimp only
    rcases hj : goIndex s [b] with _ | j
    · rfl
    · dsimp only
      simp only [List.length_singleton]
      have hjlt := goIndex_lt s b j hj
      have hdl : (s.drop (j + 1)).length ≤ n := by
        simp
        omega
      rw [ih (s.drop (j + 1)) g1 g2 hdl (by simp; omega) (by simp; omega)]

/-- Two-piece unfolding of intercalate. -/
theorem intercalate_cons2 (sep x y : GoStr) (zs : List GoStr) :
    List.intercalate sep (x :: y :: zs) = x ++ sep ++ List.intercalate sep (y :: zs) := by
  simp [List.intercalate, List.intersperse]

/-- intercalate of a single piece is the piece. -/
theorem intercalate_one (sep x : GoStr) : List.intercalate sep [x] = x := by
  simp [List.intercalate]

/-- goSplit takes off the leading piece at the first separator byte. -/
theorem goSplit_sep_head (b : Nat) (piece rest : GoStr) (hb : b ∉ piece) :
    goSplit (piece ++ b :: rest) [b] = piece :: goSplit rest [b] := by
  unfold goSplit
  rw [if_neg (by simp), if_neg (by simp)]
  have hdrop : (piece ++ b :: rest).drop (piece.length + 1) = rest := by
    rw [show piece ++ b :: rest = (piece ++ [b]) ++ rest by simp,
      show piece.length + 1 = (piece ++ [b]).length by simp]
    exact List.drop_left _ _
  have hlen : (piece ++ b :: rest).length = piece.length + rest.length + 1 := by
    simp
    omega
  rw [hlen]
  rw [show piece.length + rest.length + 1 + 1 = (piece.length + rest.length + 1) + 1 from rfl]
  rw [goSplitAux.eq_def]
  dsimp only
  rw [goIndex_found piece rest b hb]
  dsimp only
  simp only [List.length_singleton]
  rw [List.take_left, hdrop]
  rw [goSplitAux_irrel b rest.length rest (piece.length + rest.length + 1) (rest.length + 1)
    (Nat.le_refl _) (by omega) (by omega)]

/-- goSplit undoes intercalate when the separator is absent from every
piece. -/
theorem goSplit_intercalate (b : Nat) (pieces : List GoStr) (hne : pieces ≠ [])
    (hmem : ∀ p ∈ pieces, b ∉ p) :
    goSplit (List.intercalate [b] pieces) [b] = pieces := by
  induction pieces with
  | nil => exact absurd rfl hne
  | cons p rest ih =>
    rcases rest with _ | ⟨q, rs⟩
    · rw [intercalate_one]
      exact goSplit_no_sep p b (hmem p (by simp))
    · rw [intercalate_cons2]
      rw [show p ++ [b] ++ List.intercalate [b] (q :: rs) =
        p ++ b :: List.intercalate [b] (q :: rs) by simp]
      rw [goSplit_sep_head b p _ (hmem p (by simp))]
      rw [ih (by simp) (fun x hx => hmem x (by simp [hx]))]

/-- A byte of an intercalation is the separator or a byte of some piece. -/
theorem mem_intercalate (b d : Nat) (pieces : List GoStr)
    (hm : d ∈ List.intercalate [b] pieces) : d = b ∨ ∃ p ∈ pieces, d ∈ p := by
  induction pieces with
  | nil => simp [List.intercalate] at hm
  | cons p rest ih =>
    rcases rest with _ | ⟨q, rs⟩
    · rw [intercalate_one] at hm
      exact Or.inr ⟨p, by simp, hm⟩
    · rw [intercalate_cons2] at hm
      rcases List.mem_append.mp hm with h1 | h1
      · rcases List.mem_append.mp h1 with h2 | h2
        · exact Or.inr ⟨p, by simp, h2⟩
        · rcases List.mem_cons.mp h2 with h3 | h3
          · exact Or.inl h3
          · cases h3
      · rcases ih h1 with h2 | ⟨x, hx, hdx⟩
        · exact Or.inl h2
        · exact Or.inr ⟨x, by simp [hx], hdx⟩

/-- An intercalation headed by a non-empty piece is non-empty. -/
theorem intercalate_ne_nil (sep x : GoStr) (xs : List GoStr) (hx : x ≠ []) :
    List.intercalate sep (x :: xs) ≠ [] := by
  rcases xs with _ | ⟨y, ys⟩
  · rw [intercalate_one]
    exact hx
  · rw [intercalate_cons2]
    simp [hx]

/-- Strictly below implies below. -/
theorem strLt_le (a : GoStr) : ∀ b, strLt a b = true → strLe a b = true := by
  induction a with
  | nil => intro b _; rcases b <;> rfl
  | cons c as ih =>
    intro b h
    rcases b with _ | ⟨d, bs⟩
    · rw [strLt.eq_def] at h
      cases h
    · rw [strLt.eq_def] at h
      rw [strLe.eq_def]
      dsimp only at h ⊢
      by_cases h1 : c < d
      · simp [h1]
      · rw [if_neg h1] at h ⊢
        by_cases h2 : c > d
        · rw [if_pos h2] at h
          cases h
        · rw [if_neg h2] at h ⊢
          exact ih bs h

/-- Strictly below implies distinct. -/
theorem strLt_ne (a : GoStr) : ∀ b, strLt a b = true → a ≠ b := by
  induction a with
  | nil =>
    intro b h
    rcases b with _ | ⟨d, bs⟩
    · rw [strLt.eq_def] at h
      cases h
    · simp
  | cons c as ih =>
    intro b h
    rcases b with _ | ⟨d, bs⟩
    · simp
    · rw [strLt.eq_def] at h
      dsimp only at h
      by_cases h1 : c < d
      · simp
        intro he
        omega
      · rw [if_neg h1] at h
        by_cases h2 : c > d
        · rw [if_pos h2] at h
          cases h
        · rw [if_neg h2] at h
          simp
          intro _
          exact ih bs h

/-- Appending a fresh key adds a new final entry. -/
theorem kvAppend_fresh (m : KeyValuePairs) (k : GoStr) (v : GoStr)
    (h : ∀ e ∈ m, e.1 ≠ k) : kvAppend m k v = m ++ [(k, [v])] := by
  induction m with
  | nil => rfl
  | cons e rest ih =>
    rw [kvAppend.eq_def]
    rcases e with ⟨k0, vs⟩
    dsimp only
    have hk0 : (k0 == k) = false := beq_eq_false_iff_ne.mpr (h (k0, vs) (by simp))
    rw [hk0]
    simp only [Bool.false_eq_true, if_false, List.cons_append, List.cons.injEq, true_and]
    exact ih (fun e he => h e (by simp [he]))

/-- Folding kvAppend over pairs with strictly sorted fresh keys lays the
pairs down one entry each, in order. -/
theorem foldl_kvAppend_sorted (ps : List (GoStr × GoStr)) :
    ∀ (acc : KeyValuePairs), (∀ e ∈ acc, ∀ q ∈ ps, e.1 ≠ q.1) →
      pairwiseStrLt (ps.map (·.1)) = true →
      ps.foldl (fun m p => kvAppend m p.1 p.2) acc =
        acc ++ ps.map (fun p => (p.1, [p.2])) := by
  induction ps with
  | nil => intro acc _ _; simp
  | cons p rest ih =>
    intro acc hacc hsort
    rcases p with ⟨k, v⟩
    simp only [pairwiseStrLt, List.map_cons, List.all_eq_true, Bool.and_eq_true] at hsort
    rw [List.foldl_cons]
    rw [kvAppend_fresh acc k v (fun e he => hacc e he (k, v) (by simp))]
    rw [ih (acc ++ [(k, [v])]) ?fresh hsort.2]
    · simp
    case fresh =>
      intro e he q hq
      rcases List.mem_append.mp he with h1 | h1
      · exact hacc e h1 q (by simp [hq])
      · rcases List.mem_cons.mp h1 with h2 | h2
        · subst h2
          dsimp only
          exact strLt_ne k q.1 (hsort.1 q.1 (by simp; exact ⟨q.2, hq⟩))
        · cases h2

/-- The query-escaped rendering of a pair is free of the given delimiter. -/
theorem renderPair_not_mem (p : GoStr × GoStr) (d : Nat) (hp : pairBytes p = true)
    (hq : querySafeByte d = false) (h37 : d ≠ 37) (h61 : d ≠ 61) :
    d ∉ renderPair p := by
  simp only [pairBytes, Bool.and_eq_true] at hp
  intro hm
  rcases List.mem_append.mp hm with h1 | h1
  · exact not_mem_escapeInto p.1 d hp.1 hq h37 h1
  · rcases List.mem_cons.mp h1 with h2 | h2
    · exact h61 h2
    · exact not_mem_escapeInto p.2 d hp.2 hq h37 h2

/-- A rendered pair is never empty. -/
theorem renderPair_ne_nil (p : GoStr × GoStr) : renderPair p ≠ [] := by
  simp [renderPair]

/-- The decoder loop turns rendered pairs into the matching kvAppend
fold. -/
theorem decode_go_pairs (ps : List (GoStr × GoStr)) :
    ∀ (acc : KeyValuePairs), ps.all pairBytes = true →
      DecodeURLValues.go (ps.map renderPair) acc =
        some (.ok (ps.foldl (fun m p => kvAppend m p.1 p.2) acc)) := by
  induction ps with
  | nil => intro acc _; rfl
  | cons p rest ih =>
    intro acc hb
    simp only [List.all_cons, Bool.and_eq_true] at hb
    rcases p with ⟨k, v⟩
    simp only [pairBytes, Bool.and_eq_true] at hb
    rw [List.map_cons, DecodeURLValues.go.eq_def]
    dsimp only
    rw [show bytes "=" = [61] from rfl]
    rw [show renderPair (k, v) = escapeInto k ++ 61 :: escapeInto v from rfl]
    rw [goCut_found (escapeInto k) (escapeInto v) 61
      (not_mem_escapeInto k 61 hb.1.1 (by decide) (by decide))]
    dsimp only
    rw [unescape_escapeInto k hb.1.1]
    dsimp only
    rw [unescape_escapeInto v hb.1.2]
    dsimp only
    rw [ih (kvAppend acc k v) hb.2]
    rfl

/-- Eager decoding of a canonical multi-pair block yields one store entry
per pair, in order. -/
theorem decode_pairs (ps : List (GoStr × GoStr)) (sepb : Nat) (hne : ps ≠ [])
    (hb : ps.all pairBytes = true) (hsort : pairwiseStrLt (ps.map (·.1)) = true)
    (hsq : querySafeByte sepb = false) (hs37 : sepb ≠ 37) (hs61 : sepb ≠ 61) :
    eagerDecode (List.intercalate [sepb] (ps.map renderPair)) [sepb] =
      some (.ok (.pairs (ps.map (fun p => (p.1, [p.2]))))) := by
  have hmem : ∀ q ∈ ps.map renderPair, sepb ∉ q := by
    intro q hq
    rw [List.mem_map] at hq
    obtain ⟨p, hp, hpq⟩ := hq
    rw [← hpq]
    exact renderPair_not_mem p sepb (List.all_eq_true.mp hb p hp) hsq hs37 hs61
  unfold eagerDecode DecodeURLValues
  rw [goSplit_intercalate sepb (ps.map renderPair) (by simpa using hne) hmem]
  rw [decode_go_pairs ps [] hb]
  rw [foldl_kvAppend_sorted ps [] (by simp) hsort]
  rfl

/-- Eager decoding of a single rendered pair. -/
theorem decode_one_pair (p : GoStr × GoStr) (sepb : Nat) (hb : pairBytes p = true)
    (hsq : querySafeByte sepb = false) (hs37 : sepb ≠ 37) (hs61 : sepb ≠ 61) :
    eagerDecode (renderPair p) [sepb] = some (.ok (.pairs [(p.1, [p.2])])) := by
  have := decode_pairs [p] sepb (by simp) (by simpa using hb)
    (by simp [pairwiseStrLt]) hsq hs37 hs61
  simpa [intercalate_one] using this

/-- sort.Strings returns a strictly sorted key list unchanged. -/
theorem sortStrings_sorted (ks : List GoStr) (h : pairwiseStrLt ks = true) :
    sortStrings ks = ks := by
  induction ks with
  | nil => rfl
  | cons k rest ih =>
    simp only [pairwiseStrLt, List.all_eq_true, Bool.and_eq_true] at h
    have hstep : sortStrings (k :: rest) = sortInsert k (sortStrings rest) := rfl
    rw [hstep, ih h.2]
    rcases rest with _ | ⟨r, rs⟩
    · rfl
    · rw [sortInsert.eq_def]
      dsimp only
      rw [strLt_le k r (h.1 r (by simp))]
      simp

/-- Pointwise equal functions give equal flat maps. -/
theorem flatMap_congr_mem (l : List GoStr) (f g : GoStr → List (GoStr × GoStr))
    (h : ∀ x ∈ l, f x = g x) : l.flatMap f = l.flatMap g := by
  induction l with
  | nil => rfl
  | cons x xs ih =>
    rw [List.flatMap_cons, List.flatMap_cons, h x (by simp),
      ih (fun y hy => h y (by simp [hy]))]

/-- Looking every sorted key back up in the one-entry-per-pair store
reassembles the original pair list. -/
theorem flatMap_lookup (ps : List (GoStr × GoStr))
    (hsort : pairwiseStrLt (ps.map (·.1)) = true) :
    (ps.map (·.1)).flatMap (fun k =>
      (kvLookup (ps.map (fun p => (p.1, [p.2]))) k).map (fun v => (k, v))) = ps := by
  induction ps with
  | nil => rfl
  | cons p rest ih =>
    rcases p with ⟨k, v⟩
    simp only [List.map_cons, pairwiseStrLt, List.all_eq_true, Bool.and_eq_true] at hsort ⊢
    rw [List.flatMap_cons]
    have hhead : kvLookup ((k, [v]) :: rest.map (fun p => (p.1, [p.2]))) k = [v] := by
      rw [kvLookup.eq_def]
      simp
    rw [hhead]
    have htail : (rest.map (·.1)).flatMap (fun k2 =>
        (kvLookup ((k, [v]) :: rest.map (fun p => (p.1, [p.2]))) k2).map (fun v2 => (k2, v2))) =
        (rest.map (·.1)).flatMap (fun k2 =>
          (kvLookup (rest.map (fun p => (p.1, [p.2]))) k2).map (fun v2 => (k2, v2))) := by
      refine flatMap_congr_mem _ _ _ ?_
      intro k2 hk2
      have hne : k ≠ k2 := by
        rw [List.mem_map] at hk2
        obtain ⟨q, hq, hqk⟩ := hk2
        rw [← hqk]
        exact strLt_ne k q.1 (hsort.1 q.1 (by rw [List.mem_map]; exact ⟨q, hq, rfl⟩))
      rw [kvLookup.eq_def]
      dsimp only
      rw [beq_eq_false_iff_ne.mpr hne]
      simp
    rw [htail, ih hsort.2]
    simp

/-- The length of a constant-one map sums to the list length. -/
theorem sum_map_one (l : List (GoStr × GoStr)) :
    ((l.map (fun p => (p.1, [p.2]))).map (fun p => p.2.length)).sum = l.length := by
  induction l with
  | nil => rfl
  | cons p rest ih =>
    simp only [List.map_cons, List.sum_cons, List.length_cons, List.length_nil]
    rw [ih]
    omega

/-- Encoding the one-entry-per-pair store of a strictly sorted pair list
renders the pairs joined with ampersands. -/
theorem encode_pairs (ps : List (GoStr × GoStr)) (hne : ps ≠ [])
    (hsort : pairwiseStrLt (ps.map (·.1)) = true) :
    EncodeURLValues (ps.map (fun p => (p.1, [p.2]))) =
      some (List.intercalate [38] (ps.map renderPair)) := by
  unfold EncodeURLValues
  rw [if_neg (by simpa using hne)]
  rw [if_neg ?req]
  case req =>
    rw [sum_map_one ps]
    have hlen : 0 < ps.length := List.length_pos.mpr hne
    simp only [not_lt]
    omega
  have hkeys : (ps.map (fun p => (p.1, [p.2]))).map (·.1) = ps.map (·.1) := by
    simp
  dsimp only
  rw [hkeys, sortStrings_sorted (ps.map (·.1)) hsort]
  rw [flatMap_lookup ps hsort]
  have hrp : (fun (p : GoStr × GoStr) => escapeInto p.1 ++ [61] ++ escapeInto p.2) =
      renderPair := by
    funext p
    simp [renderPair]
  rw [hrp]

/-- Encoding a singleton store renders the single pair. -/
theorem encode_one_pair (p : GoStr × GoStr) :
    EncodeURLValues [(p.1, [p.2])] = some (renderPair p) := by
  have := encode_pairs [p] (by simp) (by simp [pairwiseStrLt])
  simpa [intercalate_one] using this

/-- Membership bound for two halves around a separator byte. -/
theorem mem_sep_pair (b sep : Nat) (x y : GoStr) (hx : b ∉ x) (hy : b ∉ y)
    (hb : b ≠ sep) : b ∉ x ++ sep :: y := by
  intro hm
  rcases List.mem_append.mp hm with h1 | h1
  · exact hx h1
  · rcases List.mem_cons.mp h1 with h2 | h2
    · exact hb h2
    · exact hy h2

/-- A query-escaped byte other than percent, equals and the ampersand is
absent from a rendered header block. -/
theorem hdrBlock_not_mem (ps : List (GoStr × GoStr)) (d : Nat)
    (hb : ps.all pairBytes = true) (hq : querySafeByte d = false) (hd37 : d ≠ 37)
    (hd61 : d ≠ 61) (hd38 : d ≠ 38) :
    d ∉ List.intercalate [38] (ps.map renderPair) := by
  intro hm
  rcases mem_intercalate 38 d _ hm with h1 | ⟨p, hp, hdp⟩
  · exact hd38 h1
  · rw [List.mem_map] at hp
    obtain ⟨q, hq2, hqp⟩ := hp
    exact renderPair_not_mem q d (List.all_eq_true.mp hb q hq2) hq hd37 hd61 (hqp ▸ hdp)

/-- A list is a prefix of itself followed by anything. -/
theorem isPrefixOf_append_self (p rest : GoStr) : p.isPrefixOf (p ++ rest) = true := by
  induction p with
  | nil => simp [List.isPrefixOf]
  | cons a as ih => simp [List.isPrefixOf, ih]

/-- The sip scheme prefix does not match a sips-prefixed string. -/
theorem sip_not_prefixOf_sips (rest : GoStr) :
    sipProtocol.isPrefixOf (sipsProtocol ++ rest) = false := by
  rw [show sipProtocol = [115, 105, 112, 58] from rfl,
    show sipsProtocol = [115, 105, 112, 115, 58] from rfl]
  simp [List.isPrefixOf]

/-- Parse computation for the full canonical shape: user with password, one
parameter pair, non-empty header list. -/
theorem parse_up_pp_hh (secure : Bool) (u p : GoStr) (ch : CanonHost)
    (pr : GoStr × GoStr) (h0 : GoStr × GoStr) (hrest : List (GoStr × GoStr))
    (hune : u ≠ []) (hucond : (u.all userSafeByte || u.all userCanonByte) = true)
    (hpall : p.all userSafeByte = true) (hch : canonHostOK ch = true)
    (hpr : pairBytes pr = true) (hall : (h0 :: hrest).all pairBytes = true)
    (hsort : pairwiseStrLt ((h0 :: hrest).map (·.1)) = true) :
    parseURI secure
      (uinfoText (some (u, some p)) ++ hostText ch ++ parText (some pr) ++
        hdrText (h0 :: hrest)) false =
    some (.ok (canonicalRecord secure (some (u, some p)) ch (some pr) (h0 :: hrest))) := by
  obtain ⟨hhne, h64h, h63h, h59h, h37h, hhall⟩ := hostText_facts ch hch
  have e5 := hostText_split ch hch
  obtain ⟨hrne, h64u, h58u, hues, hesc⟩ := renderUser_spec u hune hucond
  have hhne' : (hostText ch == ([] : GoStr)) = false := beq_eq_false_iff_ne.mpr hhne
  have h64p : (64 : Nat) ∉ p := not_mem_of_all _ _ _ hpall (by decide)
  have h64pr : (64 : Nat) ∉ renderPair pr :=
    renderPair_not_mem pr 64 hpr (by decide) (by decide) (by decide)
  have h63pr : (63 : Nat) ∉ renderPair pr :=
    renderPair_not_mem pr 63 hpr (by decide) (by decide) (by decide)
  have h59pr : (59 : Nat) ∉ renderPair pr :=
    renderPair_not_mem pr 59 hpr (by decide) (by decide) (by decide)
  have h64blk : (64 : Nat) ∉ List.intercalate [38] (renderPair h0 :: hrest.map renderPair) := by
    have := hdrBlock_not_mem (h0 :: hrest) 64 hall (by decide) (by decide) (by decide) (by decide)
    simpa using this
  have e1 : goCut (renderUser u ++ 58 :: (p ++ 64 :: (hostText ch ++ 59 ::
      (renderPair pr ++ 63 :: List.intercalate [38] (renderPair h0 :: hrest.map renderPair))))) [64] =
      (renderUser u ++ 58 :: p,
        hostText ch ++ 59 ::
          (renderPair pr ++ 63 :: List.intercalate [38] (renderPair h0 :: hrest.map renderPair)),
        true) := by
    simpa using goCut_found (renderUser u ++ 58 :: p)
      (hostText ch ++ 59 ::
        (renderPair pr ++ 63 :: List.intercalate [38] (renderPair h0 :: hrest.map renderPair))) 64
      (mem_sep_pair 64 58 _ _ h64u h64p (by decide))
  have e2 : goCut (hostText ch ++ 59 ::
      (renderPair pr ++ 63 :: List.intercalate [38] (renderPair h0 :: hrest.map renderPair))) [63] =
      (hostText ch ++ 59 :: renderPair pr,
        List.intercalate [38] (renderPair h0 :: hrest.map renderPair), true) := by
    simpa using goCut_found (hostText ch ++ 59 :: renderPair pr)
      (List.intercalate [38] (renderPair h0 :: hrest.map renderPair)) 63
      (mem_sep_pair 63 59 _ _ h63h h63pr (by decide))
  have e3 : goCut (hostText ch ++ 59 :: renderPair pr) [59] =
      (hostText ch, renderPair pr, true) := goCut_found _ _ 59 h59h
  have e4 : goCut (renderUser u ++ 58 :: p) [58] = (renderUser u, p, true) :=
    goCut_found _ _ 58 h58u
  have dp := decode_one_pair pr 59 hpr (by decide) (by decide) (by decide)
  have hprne : (renderPair pr == ([] : GoStr)) = false :=
    beq_eq_false_iff_ne.mpr (renderPair_ne_nil pr)
  have dh := decode_pairs (h0 :: hrest) 38 (by simp) hall hsort
    (by decide) (by decide) (by decide)
  simp only [List.map_cons] at dh
  have hblkne : (List.intercalate [38] (renderPair h0 :: hrest.map renderPair) == ([] : GoStr)) = false :=
    beq_eq_false_iff_ne.mpr (intercalate_ne_nil _ _ _ (renderPair_ne_nil h0))
  unfold parseURI
  simp [canonicalRecord, uinfoText, parText, hdrText, e1, e2, e3, e4, e5, hhne',
    hues, Unescape_no37 (hostText ch) h37h, dp, dh, hprne, hblkne]

/-- String computation for the full canonical shape. -/
theorem string_up_pp_hh (secure : Bool) (u p : GoStr) (ch : CanonHost)
    (pr : GoStr × GoStr) (h0 : GoStr × GoStr) (hrest : List (GoStr × GoStr))
    (hune : u ≠ []) (hucond : (u.all userSafeByte || u.all userCanonByte) = true)
    (hpall : p.all userSafeByte = true) (hch : canonHostOK ch = true)
    (hsort : pairwiseStrLt ((h0 :: hrest).map (·.1)) = true) :
    (canonicalRecord secure (some (u, some p)) ch (some pr) (h0 :: hrest)).String =
      some (canonicalSip secure (some (u, some p)) ch (some pr) (h0 :: hrest)) := by
  obtain ⟨hhne, h64h, h63h, h59h, h37h, hhall⟩ := hostText_facts ch hch
  obtain ⟨hrne, h64u, h58u, hues, hesc⟩ := renderUser_spec u hune hucond
  have eh : escape (hostText ch) encodeHost = some (hostText ch) :=
    escape_id _ _ hhall
  have ep := encode_one_pair pr
  have ehd := encode_pairs (h0 :: hrest) (by simp) hsort
  simp only [List.map_cons] at ehd
  by_cases hp : p = []
  · simp [URI.String, canonicalRecord, canonicalSip, uinfoText, parText, hdrText,
      URI.Params, URI.Headers, KVStore.Empty, KVStore.Encode, eh, hune, hesc, hp, ep, ehd]
  · simp [URI.String, canonicalRecord, canonicalSip, uinfoText, parText, hdrText,
      URI.Params, URI.Headers, KVStore.Empty, KVStore.Encode, eh, hune, hesc, hp,
      escape_user_id p hpall, ep, ehd]


/-- Parse computation for the canonical shape (n, np, nh). -/
theorem parse_n_np_nh (secure : Bool) (ch : CanonHost)
    (hch : canonHostOK ch = true)
    :
    parseURI secure
      (uinfoText (none) ++ hostText ch ++ parText (none) ++
        hdrText ([] : List (GoStr × GoStr))) false =
    some (.ok (canonicalRecord secure (none) ch (none) ([] : List (GoStr × GoStr)))) := by
  obtain ⟨hhne, h64h, h63h, h59h, h37h, hhall⟩ := hostText_facts ch hch
  have e5 := hostText_split ch hch
  have hhne' : (hostText ch == ([] : GoStr)) = false := beq_eq_false_iff_ne.mpr hhne
  have e1 : goCut (hostText ch) [64] = (hostText ch, [], false) :=
    goCut_not_found _ 64 (h64h)
  have e2 : goCut (hostText ch) [63] = (hostText ch, [], false) :=
    goCut_not_found _ 63 (h63h)
  have e3 : goCut (hostText ch) [59] = (hostText ch, [], false) :=
    goCut_not_found _ 59 h59h
  have eqnil : goCut ([] : GoStr) [58] = ([], [], false) :=
    goCut_not_found [] 58 (by simp)
  have unil : Unescape ([] : GoStr) = some (.ok []) := Unescape_no37 [] (by simp)
  unfold parseURI
  simp [canonicalRecord, uinfoText, parText, hdrText, e1, e2, e3, eqnil, unil, e5, hhne', Unescape_no37 (hostText ch) h37h]

/-- Parse computation for the canonical shape (u, np, nh). -/
theorem parse_u_np_nh (secure : Bool) (u : GoStr) (ch : CanonHost)
    (hune : u ≠ []) (hucond : (u.all userSafeByte || u.all userCanonByte) = true)
    (hch : canonHostOK ch = true)
    :
    parseURI secure
      (uinfoText (some (u, none)) ++ hostText ch ++ parText (none) ++
        hdrText ([] : List (GoStr × GoStr))) false =
    some (.ok (canonicalRecord secure (some (u, none)) ch (none) ([] : List (GoStr × GoStr)))) := by
  obtain ⟨hhne, h64h, h63h, h59h, h37h, hhall⟩ := hostText_facts ch hch
  have e5 := hostText_split ch hch
  have hhne' : (hostText ch == ([] : GoStr)) = false := beq_eq_false_iff_ne.mpr hhne
  obtain ⟨hrne, h64u, h58u, hues, hesc⟩ := renderUser_spec u hune hucond
  have hrne' : (renderUser u == ([] : GoStr)) = false := beq_eq_false_iff_ne.mpr hrne
  have e1 : goCut (renderUser u ++ 64 :: hostText ch) [64] =
      (renderUser u, hostText ch, true) :=
    goCut_found _ _ 64 h64u
  have e2 : goCut (hostText ch) [63] = (hostText ch, [], false) :=
    goCut_not_found _ 63 (h63h)
  have e3 : goCut (hostText ch) [59] = (hostText ch, [], false) :=
    goCut_not_found _ 59 h59h
  have e4 : goCut (renderUser u) [58] = (renderUser u, [], false) :=
    goCut_not_found _ 58 h58u
  unfold parseURI
  simp [canonicalRecord, uinfoText, parText, hdrText, e1, e2, e3, e4, hues, hrne', e5, hhne', Unescape_no37 (hostText ch) h37h]

/-- Parse computation for the canonical shape (up, np, nh). -/
theorem parse_up_np_nh (secure : Bool) (u : GoStr) (p : GoStr) (ch : CanonHost)
    (hune : u ≠ []) (hucond : (u.all userSafeByte || u.all userCanonByte) = true)
    (hpall : p.all userSafeByte = true)
    (hch : canonHostOK ch = true)
    :
    parseURI secure
      (uinfoText (some (u, some p)) ++ hostText ch ++ parText (none) ++
        hdrText ([] : List (GoStr × GoStr))) false =
    some (.ok (canonicalRecord secure (some (u, some p)) ch (none) ([] : List (GoStr × GoStr)))) := by
  obtain ⟨hhne, h64h, h63h, h59h, h37h, hhall⟩ := hostText_facts ch hch
  have e5 := hostText_split ch hch
  have hhne' : (hostText ch == ([] : GoStr)) = false := beq_eq_false_iff_ne.mpr hhne
  obtain ⟨hrne, h64u, h58u, hues, hesc⟩ := renderUser_spec u hune hucond
  have hrne' : (renderUser u == ([] : GoStr)) = false := beq_eq_false_iff_ne.mpr hrne
  have h64p : (64 : Nat) ∉ p := not_mem_of_all _ _ _ hpall (by decide)
  have e1 : goCut (renderUser u ++ 58 :: (p ++ 64 :: hostText ch)) [64] =
      (renderUser u ++ 58 :: p, hostText ch, true) := by
    simpa using goCut_found (renderUser u ++ 58 :: p) (hostText ch) 64
      (mem_sep_pair 64 58 _ _ h64u h64p (by decide))
  have e2 : goCut (hostText ch) [63] = (hostText ch, [], false) :=
    goCut_not_found _ 63 (h63h)
  have e3 : goCut (hostText ch) [59] = (hostText ch, [], false) :=
    goCut_not_found _ 59 h59h
  have e4 : goCut (renderUser u ++ 58 :: p) [58] = (renderUser u, p, true) :=
    goCut_found _ _ 58 h58u
  unfold parseURI
  simp [canonicalRecord, uinfoText, parText, hdrText, e1, e2, e3, e4, hues, hrne', e5, hhne', Unescape_no37 (hostText ch) h37h]

/-- Parse computation for the canonical shape (n, np, hh). -/
theorem parse_n_np_hh (secure : Bool) (ch : CanonHost) (h0 : GoStr × GoStr) (hrest : List (GoStr × GoStr))
    (hch : canonHostOK ch = true)
    (hall : (h0 :: hrest).all pairBytes = true)
    (hsort : pairwiseStrLt ((h0 :: hrest).map (·.1)) = true)
    :
    parseURI secure
      (uinfoText (none) ++ hostText ch ++ parText (none) ++
        hdrText (h0 :: hrest)) false =
    some (.ok (canonicalRecord secure (none) ch (none) (h0 :: hrest))) := by
  obtain ⟨hhne, h64h, h63h, h59h, h37h, hhall⟩ := hostText_facts ch hch
  have e5 := hostText_split ch hch
  have hhne' : (hostText ch == ([] : GoStr)) = false := beq_eq_false_iff_ne.mpr hhne
  have h64blk : (64 : Nat) ∉ List.intercalate [38] (renderPair h0 :: hrest.map renderPair) := by
    have := hdrBlock_not_mem (h0 :: hrest) 64 hall (by decide) (by decide) (by decide) (by decide)
    simpa using this
  have dh := decode_pairs (h0 :: hrest) 38 (by simp) hall hsort
    (by decide) (by decide) (by decide)
  simp only [List.map_cons] at dh
  have hblkne : (List.intercalate [38] (renderPair h0 :: hrest.map renderPair) == ([] : GoStr)) = false :=
    beq_eq_false_iff_ne.mpr (intercalate_ne_nil _ _ _ (renderPair_ne_nil h0))
  have e1 : goCut (hostText ch ++ 63 :: List.intercalate [38] (renderPair h0 :: hrest.map renderPair)) [64] = (hostText ch ++ 63 :: List.intercalate [38] (renderPair h0 :: hrest.map renderPair), [], false) :=
    goCut_not_found _ 64 (mem_sep_pair 64 63 _ _ h64h h64blk (by decide))
  have e2 : goCut (hostText ch ++ 63 :: List.intercalate [38] (renderPair h0 :: hrest.map renderPair)) [63] = (hostText ch, List.intercalate [38] (renderPair h0 :: hrest.map renderPair), true) :=
    goCut_found _ _ 63 h63h
  have e3 : goCut (hostText ch) [59] = (hostText ch, [], false) :=
    goCut_not_found _ 59 h59h
  have eqnil : goCut ([] : GoStr) [58] = ([], [], false) :=
    goCut_not_found [] 58 (by simp)
  have unil : Unescape ([] : GoStr) = some (.ok []) := Unescape_no37 [] (by simp)
  unfold parseURI
  simp [canonicalRecord, uinfoText, parText, hdrText, e1, e2, e3, eqnil, unil, e5, hhne', Unescape_no37 (hostText ch) h37h, dh, hblkne]

/-- Parse computation for the canonical shape (u, np, hh). -/
theorem parse_u_np_hh (secure : Bool) (u : GoStr) (ch : CanonHost) (h0 : GoStr × GoStr) (hrest : List (GoStr × GoStr))
    (hune : u ≠ []) (hucond : (u.all userSafeByte || u.all userCanonByte) = true)
    (hch : canonHostOK ch = true)
    (hall : (h0 :: hrest).all pairBytes = true)
    (hsort : pairwiseStrLt ((h0 :: hrest).map (·.1)) = true)
    :
    parseURI secure
      (uinfoText (some (u, none)) ++ hostText ch ++ parText (none) ++
        hdrText (h0 :: hrest)) false =
    some (.ok (canonicalRecord secure (some (u, none)) ch (none) (h0 :: hrest))) := by
  obtain ⟨hhne, h64h, h63h, h59h, h37h, hhall⟩ := hostText_facts ch hch
  have e5 := hostText_split ch hch
  have hhne' : (hostText ch == ([] : GoStr)) = false := beq_eq_false_iff_ne.mpr hhne
  obtain ⟨hrne, h64u, h58u, hues, hesc⟩ := renderUser_spec u hune hucond
  have hrne' : (renderUser u == ([] : GoStr)) = false := beq_eq_false_iff_ne.mpr hrne
  have h64blk : (64 : Nat) ∉ List.intercalate [38] (renderPair h0 :: hrest.map renderPair) := by
    have := hdrBlock_not_mem (h0 :: hrest) 64 hall (by decide) (by decide) (by decide) (by decide)
    simpa using this
  have dh := decode_pairs (h0 :: hrest) 38 (by simp) hall hsort
    (by decide) (by decide) (by decide)
  simp only [List.map_cons] at dh
  have hblkne : (List.intercalate [38] (renderPair h0 :: hrest.map renderPair) == ([] : GoStr)) = false :=
    beq_eq_false_iff_ne.mpr (intercalate_ne_nil _ _ _ (renderPair_ne_nil h0))
  have e1 : goCut (renderUser u ++ 64 :: (hostText ch ++ 63 :: List.intercalate [38] (renderPair h0 :: hrest.map renderPair))) [64] =
      (renderUser u, hostText ch ++ 63 :: List.intercalate [38] (renderPair h0 :: hrest.map renderPair), true) :=
    goCut_found _ _ 64 h64u
  have e2 : goCut (hostText ch ++ 63 :: List.intercalate [38] (renderPair h0 :: hrest.map renderPair)) [63] = (hostText ch, List.intercalate [38] (renderPair h0 :: hrest.map renderPair), true) :=
    goCut_found _ _ 63 h63h
  have e3 : goCut (hostText ch) [59] = (hostText ch, [], false) :=
    goCut_not_found _ 59 h59h
  have e4 : goCut (renderUser u) [58] = (renderUser u, [], false) :=
    goCut_not_found _ 58 h58u
  unfold parseURI
  simp [canonicalRecord, uinfoText, parText, hdrText, e1, e2, e3, e4, hues, hrne', e5, hhne', Unescape_no37 (hostText ch) h37h, dh, hblkne]

/-- Parse computation for the canonical shape (up, np, hh). -/
theorem parse_up_np_hh (secure : Bool) (u : GoStr) (p : GoStr) (ch : CanonHost) (h0 : GoStr × GoStr) (hrest : List (GoStr × GoStr))
    (hune : u ≠ []) (hucond : (u.all userSafeByte || u.all userCanonByte) = true)
    (hpall : p.all userSafeByte = true)
    (hch : canonHostOK ch = true)
    (hall : (h0 :: hrest).all pairBytes = true)
    (hsort : pairwiseStrLt ((h0 :: hrest).map (·.1)) = true)
    :
    parseURI secure
      (uinfoText (some (u, some p)) ++ hostText ch ++ parText (none) ++
        hdrText (h0 :: hrest)) false =
    some (.ok (canonicalRecord secure (some (u, some p)) ch (none) (h0 :: hrest))) := by
  obtain ⟨hhne, h64h, h63h, h59h, h37h, hhall⟩ := hostText_facts ch hch
  have e5 := hostText_split ch hch
  have hhne' : (hostText ch == ([] : GoStr)) = false := beq_eq_false_iff_ne.mpr hhne
  obtain ⟨hrne, h64u, h58u, hues, hesc⟩ := renderUser_spec u hune hucond
  have hrne' : (renderUser u == ([] : GoStr)) = false := beq_eq_false_iff_ne.mpr hrne
  have h64p : (64 : Nat) ∉ p := not_mem_of_all _ _ _ hpall (by decide)
  have h64blk : (64 : Nat) ∉ List.intercalate [38] (renderPair h0 :: hrest.map renderPair) := by
    have := hdrBlock_not_mem (h0 :: hrest) 64 hall (by decide) (by decide) (by decide) (by decide)
    simpa using this
  have dh := decode_pairs (h0 :: hrest) 38 (by simp) hall hsort
    (by decide) (by decide) (by decide)
  simp only [List.map_cons] at dh
  have hblkne : (List.intercalate [38] (renderPair h0 :: hrest.map renderPair) == ([] : GoStr)) = false :=
    beq_eq_false_iff_ne.mpr (intercalate_ne_nil _ _ _ (renderPair_ne_nil h0))
  have e1 : goCut (renderUser u ++ 58 :: (p ++ 64 :: (hostText ch ++ 63 :: List.intercalate [38] (renderPair h0 :: hrest.map renderPair)))) [64] =
      (renderUser u ++ 58 :: p, hostText ch ++ 63 :: List.intercalate [38] (renderPair h0 :: hrest.map renderPair), true) := by
    simpa using goCut_found (renderUser u ++ 58 :: p) (hostText ch ++ 63 :: List.intercalate [38] (renderPair h0 :: hrest.map renderPair)) 64
      (mem_sep_pair 64 58 _ _ h64u h64p (by decide))
  have e2 : goCut (hostText ch ++ 63 :: List.intercalate [38] (renderPair h0 :: hrest.map renderPair)) [63] = (hostText ch, List.intercalate [38] (renderPair h0 :: hrest.map renderPair), true) :=
    goCut_found _ _ 63 h63h
  have e3 : goCut (hostText ch) [59] = (hostText ch, [], false) :=
    goCut_not_found _ 59 h59h
  have e4 : goCut (renderUser u ++ 58 :: p) [58] = (renderUser u, p, true) :=
    goCut_found _ _ 58 h58u
  unfold parseURI
  simp [canonicalRecord, uinfoText, parText, hdrText, e1, e2, e3, e4, hues, hrne', e5, hhne', Unescape_no37 (hostText ch) h37h, dh, hblkne]

/-- Parse computation for the canonical shape (n, pp, nh). -/
theorem parse_n_pp_nh (secure : Bool) (ch : CanonHost) (pr : GoStr × GoStr)
    (hch : canonHostOK ch = true)
    (hpr : pairBytes pr = true)
    :
    parseURI secure
      (uinfoText (none) ++ hostText ch ++ parText (some pr) ++
        hdrText ([] : List (GoStr × GoStr))) false =
    some (.ok (canonicalRecord secure (none) ch (some pr) ([] : List (GoStr × GoStr)))) := by
  obtain ⟨hhne, h64h, h63h, h59h, h37h, hhall⟩ := hostText_facts ch hch
  have e5 := hostText_split ch hch
  have hhne' : (hostText ch == ([] : GoStr)) = false := beq_eq_false_iff_ne.mpr hhne
  have h64pr : (64 : Nat) ∉ renderPair pr :=
    renderPair_not_mem pr 64 hpr (by decide) (by decide) (by decide)
  have h63pr : (63 : Nat) ∉ renderPair pr :=
    renderPair_not_mem pr 63 hpr (by decide) (by decide) (by decide)
  have h59pr : (59 : Nat) ∉ renderPair pr :=
    renderPair_not_mem pr 59 hpr (by decide) (by decide) (by decide)
  have dp := decode_one_pair pr 59 hpr (by decide) (by decide) (by decide)
  have hprne : (renderPair pr == ([] : GoStr)) = false :=
    beq_eq_false_iff_ne.mpr (renderPair_ne_nil pr)
  have e1 : goCut (hostText ch ++ 59 :: renderPair pr) [64] = (hostText ch ++ 59 :: renderPair pr, [], false) :=
    goCut_not_found _ 64 (mem_sep_pair 64 59 _ _ h64h h64pr (by decide))
  have e2 : goCut (hostText ch ++ 59 :: renderPair pr) [63] = (hostText ch ++ 59 :: renderPair pr, [], false) :=
    goCut_not_found _ 63 (mem_sep_pair 63 59 _ _ h63h h63pr (by decide))
  have e3 : goCut (hostText ch ++ 59 :: renderPair pr) [59] =
      (hostText ch, renderPair pr, true) := goCut_found _ _ 59 h59h
  have eqnil : goCut ([] : GoStr) [58] = ([], [], false) :=
    goCut_not_found [] 58 (by simp)
  have unil : Unescape ([] : GoStr) = some (.ok []) := Unescape_no37 [] (by simp)
  unfold parseURI
  simp [canonicalRecord, uinfoText, parText, hdrText, e1, e2, e3, eqnil, unil, e5, hhne', Unescape_no37 (hostText ch) h37h, dp, hprne]

/-- Parse computation for the canonical shape (u, pp, nh). -/
theorem parse_u_pp_nh (secure : Bool) (u : GoStr) (ch : CanonHost) (pr : GoStr × GoStr)
    (hune : u ≠ []) (hucond : (u.all userSafeByte || u.all userCanonByte) = true)
    (hch : canonHostOK ch = true)
    (hpr : pairBytes pr = true)
    :
    parseURI secure
      (uinfoText (some (u, none)) ++ hostText ch ++ parText (some pr) ++
        hdrText ([] : List (GoStr × GoStr))) false =
    some (.ok (canonicalRecord secure (some (u, none)) ch (some pr) ([] : List (GoStr × GoStr)))) := by
  obtain ⟨hhne, h64h, h63h, h59h, h37h, hhall⟩ := hostText_facts ch hch
  have e5 := hostText_split ch hch
  have hhne' : (hostText ch == ([] : GoStr)) = false := beq_eq_false_iff_ne.mpr hhne
  obtain ⟨hrne, h64u, h58u, hues, hesc⟩ := renderUser_spec u hune hucond
  have hrne' : (renderUser u == ([] : GoStr)) = false := beq_eq_false_iff_ne.mpr hrne
  have h64pr : (64 : Nat) ∉ renderPair pr :=
    renderPair_not_mem pr 64 hpr (by decide) (by decide) (by decide)
  have h63pr : (63 : Nat) ∉ renderPair pr :=
    renderPair_not_mem pr 63 hpr (by decide) (by decide) (by decide)
  have h59pr : (59 : Nat) ∉ renderPair pr :=
    renderPair_not_mem pr 59 hpr (by decide) (by decide) (by decide)
  have dp := decode_one_pair pr 59 hpr (by decide) (by decide) (by decide)
  have hprne : (renderPair pr == ([] : GoStr)) = false :=
    beq_eq_false_iff_ne.mpr (renderPair_ne_nil pr)
  have e1 : goCut (renderUser u ++ 64 :: (hostText ch ++ 59 :: renderPair pr)) [64] =
      (renderUser u, hostText ch ++ 59 :: renderPair pr, true) :=
    goCut_found _ _ 64 h64u
  have e2 : goCut (hostText ch ++ 59 :: renderPair pr) [63] = (hostText ch ++ 59 :: renderPair pr, [], false) :=
    goCut_not_found _ 63 (mem_sep_pair 63 59 _ _ h63h h63pr (by decide))
  have e3 : goCut (hostText ch ++ 59 :: renderPair pr) [59] =
      (hostText ch, renderPair pr, true) := goCut_found _ _ 59 h59h
  have e4 : goCut (renderUser u) [58] = (renderUser u, [], false) :=
    goCut_not_found _ 58 h58u
  unfold parseURI
  simp [canonicalRecord, uinfoText, parText, hdrText, e1, e2, e3, e4, hues, hrne', e5, hhne', Unescape_no37 (hostText ch) h37h, dp, hprne]

/-- Parse computation for the canonical shape (up, pp, nh). -/
theorem parse_up_pp_nh (secure : Bool) (u : GoStr) (p : GoStr) (ch : CanonHost) (pr : GoStr × GoStr)
    (hune : u ≠ []) (hucond : (u.all userSafeByte || u.all userCanonByte) = true)
    (hpall : p.all userSafeByte = true)
    (hch : canonHostOK ch = true)
    (hpr : pairBytes pr = true)
    :
    parseURI secure
      (uinfoText (some (u, some p)) ++ hostText ch ++ parText (some pr) ++
        hdrText ([] : List (GoStr × GoStr))) false =
    some (.ok (canonicalRecord secure (some (u, some p)) ch (some pr) ([] : List (GoStr × GoStr)))) := by
  obtain ⟨hhne, h64h, h63h, h59h, h37h, hhall⟩ := hostText_facts ch hch
  have e5 := hostText_split ch hch
  have hhne' : (hostText ch == ([] : GoStr)) = false := beq_eq_false_iff_ne.mpr hhne
  obtain ⟨hrne, h64u, h58u, hues, hesc⟩ := renderUser_spec u hune hucond
  have hrne' : (renderUser u == ([] : GoStr)) = false := beq_eq_false_iff_ne.mpr hrne
  have h64p : (64 : Nat) ∉ p := not_mem_of_all _ _ _ hpall (by decide)
  have h64pr : (64 : Nat) ∉ renderPair pr :=
    renderPair_not_mem pr 64 hpr (by decide) (by decide) (by decide)
  have h63pr : (63 : Nat) ∉ renderPair pr :=
    renderPair_not_mem pr 63 hpr (by decide) (by decide) (by decide)
  have h59pr : (59 : Nat) ∉ renderPair pr :=
    renderPair_not_mem pr 59 hpr (by decide) (by decide) (by decide)
  have dp := decode_one_pair pr 59 hpr (by decide) (by decide) (by decide)
  have hprne : (renderPair pr == ([] : GoStr)) = false :=
    beq_eq_false_iff_ne.mpr (renderPair_ne_nil pr)
  have e1 : goCut (renderUser u ++ 58 :: (p ++ 64 :: (hostText ch ++ 59 :: renderPair pr))) [64] =
      (renderUser u ++ 58 :: p, hostText ch ++ 59 :: renderPair pr, true) := by
    simpa using goCut_found (renderUser u ++ 58 :: p) (hostText ch ++ 59 :: renderPair pr) 64
      (mem_sep_pair 64 58 _ _ h64u h64p (by decide))
  have e2 : goCut (hostText ch ++ 59 :: renderPair pr) [63] = (hostText ch ++ 59 :: renderPair pr, [], false) :=
    goCut_not_found _ 63 (mem_sep_pair 63 59 _ _ h63h h63pr (by decide))
  have e3 : goCut (hostText ch ++ 59 :: renderPair pr) [59] =
      (hostText ch, renderPair pr, true) := goCut_found _ _ 59 h59h
  have e4 : goCut (renderUser u ++ 58 :: p) [58] = (renderUser u, p, true) :=
    goCut_found _ _ 58 h58u
  unfold parseURI
  simp [canonicalRecord, uinfoText, parText, hdrText, e1, e2, e3, e4, hues, hrne', e5, hhne', Unescape_no37 (hostText ch) h37h, dp, hprne]

/-- Parse computation for the canonical shape (n, pp, hh). -/
theorem parse_n_pp_hh (secure : Bool) (ch : CanonHost) (pr : GoStr × GoStr) (h0 : GoStr × GoStr) (hrest : List (GoStr × GoStr))
    (hch : canonHostOK ch = true)
    (hpr : pairBytes pr = true)
    (hall : (h0 :: hrest).all pairBytes = true)
    (hsort : pairwiseStrLt ((h0 :: hrest).map (·.1)) = true)
    :
    parseURI secure
      (uinfoText (none) ++ hostText ch ++ parText (some pr) ++
        hdrText (h0 :: hrest)) false =
    some (.ok (canonicalRecord secure (none) ch (some pr) (h0 :: hrest))) := by
  obtain ⟨hhne, h64h, h63h, h59h, h37h, hhall⟩ := hostText_facts ch hch
  have e5 := hostText_split ch hch
  have hhne' : (hostText ch == ([] : GoStr)) = false := beq_eq_false_iff_ne.mpr hhne
  have h64pr : (64 : Nat) ∉ renderPair pr :=
    renderPair_not_mem pr 64 hpr (by decide) (by decide) (by decide)
  have h63pr : (63 : Nat) ∉ renderPair pr :=
    renderPair_not_mem pr 63 hpr (by decide) (by decide) (by decide)
  have h59pr : (59 : Nat) ∉ renderPair pr :=
    renderPair_not_mem pr 59 hpr (by decide) (by decide) (by decide)
  have dp := decode_one_pair pr 59 hpr (by decide) (by decide) (by decide)
  have hprne : (renderPair pr == ([] : GoStr)) = false :=
    beq_eq_false_iff_ne.mpr (renderPair_ne_nil pr)
  have h64blk : (64 : Nat) ∉ List.intercalate [38] (renderPair h0 :: hrest.map renderPair) := by
    have := hdrBlock_not_mem (h0 :: hrest) 64 hall (by decide) (by decide) (by decide) (by decide)
    simpa using this
  have dh := decode_pairs (h0 :: hrest) 38 (by simp) hall hsort
    (by decide) (by decide) (by decide)
  simp only [List.map_cons] at dh
  have hblkne : (List.intercalate [38] (renderPair h0 :: hrest.map renderPair) == ([] : GoStr)) = false :=
    beq_eq_false_iff_ne.mpr (intercalate_ne_nil _ _ _ (renderPair_ne_nil h0))
  have e1 : goCut (hostText ch ++ 59 :: (renderPair pr ++ 63 :: List.intercalate [38] (renderPair h0 :: hrest.map renderPair))) [64] = (hostText ch ++ 59 :: (renderPair pr ++ 63 :: List.intercalate [38] (renderPair h0 :: hrest.map renderPair)), [], false) :=
    goCut_not_found _ 64 (mem_sep_pair 64 59 _ _ h64h (mem_sep_pair 64 63 _ _ h64pr h64blk (by decide)) (by decide))
  have e2 : goCut (hostText ch ++ 59 :: (renderPair pr ++ 63 :: List.intercalate [38] (renderPair h0 :: hrest.map renderPair))) [63] =
      (hostText ch ++ 59 :: renderPair pr, List.intercalate [38] (renderPair h0 :: hrest.map renderPair), true) := by
    simpa using goCut_found (hostText ch ++ 59 :: renderPair pr) (List.intercalate [38] (renderPair h0 :: hrest.map renderPair)) 63
      (mem_sep_pair 63 59 _ _ h63h h63pr (by decide))
  have e3 : goCut (hostText ch ++ 59 :: renderPair pr) [59] =
      (hostText ch, renderPair pr, true) := goCut_found _ _ 59 h59h
  have eqnil : goCut ([] : GoStr) [58] = ([], [], false) :=
    goCut_not_found [] 58 (by simp)
  have unil : Unescape ([] : GoStr) = some (.ok []) := Unescape_no37 [] (by simp)
  unfold parseURI
  simp [canonicalRecord, uinfoText, parText, hdrText, e1, e2, e3, eqnil, unil, e5, hhne', Unescape_no37 (hostText ch) h37h, dp, hprne, dh, hblkne]

/-- Parse computation for the canonical shape (u, pp, hh). -/
theorem parse_u_pp_hh (secure : Bool) (u : GoStr) (ch : CanonHost) (pr : GoStr × GoStr) (h0 : GoStr × GoStr) (hrest : List (GoStr × GoStr))
    (hune : u ≠ []) (hucond : (u.all userSafeByte || u.all userCanonByte) = true)
    (hch : canonHostOK ch = true)
    (hpr : pairBytes pr = true)
    (hall : (h0 :: hrest).all pairBytes = true)
    (hsort : pairwiseStrLt ((h0 :: hrest).map (·.1)) = true)
    :
    parseURI secure
      (uinfoText (some (u, none)) ++ hostText ch ++ parText (some pr) ++
        hdrText (h0 :: hrest)) false =
    some (.ok (canonicalRecord secure (some (u, none)) ch (some pr) (h0 :: hrest))) := by
  obtain ⟨hhne, h64h, h63h, h59h, h37h, hhall⟩ := hostText_facts ch hch
  have e5 := hostText_split ch hch
  have hhne' : (hostText ch == ([] : GoStr)) = false := beq_eq_false_iff_ne.mpr hhne
  obtain ⟨hrne, h64u, h58u, hues, hesc⟩ := renderUser_spec u hune hucond
  have hrne' : (renderUser u == ([] : GoStr)) = false := beq_eq_false_iff_ne.mpr hrne
  have h64pr : (64 : Nat) ∉ renderPair pr :=
    renderPair_not_mem pr 64 hpr (by decide) (by decide) (by decide)
  have h63pr : (63 : Nat) ∉ renderPair pr :=
    renderPair_not_mem pr 63 hpr (by decide) (by decide) (by decide)
  have h59pr : (59 : Nat) ∉ renderPair pr :=
    renderPair_not_mem pr 59 hpr (by decide) (by decide) (by decide)
  have dp := decode_one_pair pr 59 hpr (by decide) (by decide) (by decide)
  have hprne : (renderPair pr == ([] : GoStr)) = false :=
    beq_eq_false_iff_ne.mpr (renderPair_ne_nil pr)
  have h64blk : (64 : Nat) ∉ List.intercalate [38] (renderPair h0 :: hrest.map renderPair) := by
    have := hdrBlock_not_mem (h0 :: hrest) 64 hall (by decide) (by decide) (by decide) (by decide)
    simpa using this
  have dh := decode_pairs (h0 :: hrest) 38 (by simp) hall hsort
    (by decide) (by decide) (by decide)
  simp only [List.map_cons] at dh
  have hblkne : (List.intercalate [38] (renderPair h0 :: hrest.map renderPair) == ([] : GoStr)) = false :=
    beq_eq_false_iff_ne.mpr (intercalate_ne_nil _ _ _ (renderPair_ne_nil h0))
  have e1 : goCut (renderUser u ++ 64 :: (hostText ch ++ 59 :: (renderPair pr ++ 63 :: List.intercalate [38] (renderPair h0 :: hrest.map renderPair)))) [64] =
      (renderUser u, hostText ch ++ 59 :: (renderPair pr ++ 63 :: List.intercalate [38] (renderPair h0 :: hrest.map renderPair)), true) :=
    goCut_found _ _ 64 h64u
  have e2 : goCut (hostText ch ++ 59 :: (renderPair pr ++ 63 :: List.intercalate [38] (renderPair h0 :: hrest.map renderPair))) [63] =
      (hostText ch ++ 59 :: renderPair pr, List.intercalate [38] (renderPair h0 :: hrest.map renderPair), true) := by
    simpa using goCut_found (hostText ch ++ 59 :: renderPair pr) (List.intercalate [38] (renderPair h0 :: hrest.map renderPair)) 63
      (mem_sep_pair 63 59 _ _ h63h h63pr (by decide))
  have e3 : goCut (hostText ch ++ 59 :: renderPair pr) [59] =
      (hostText ch, renderPair pr, true) := goCut_found _ _ 59 h59h
  have e4 : goCut (renderUser u) [58] = (renderUser u, [], false) :=
    goCut_not_found _ 58 h58u
  unfold parseURI
  simp [canonicalRecord, uinfoText, parText, hdrText, e1, e2, e3, e4, hues, hrne', e5, hhne', Unescape_no37 (hostText ch) h37h, dp, hprne, dh, hblkne]

/-- String computation for the canonical shape (n, np, nh). -/
theorem string_n_np_nh (secure : Bool) (ch : CanonHost)
    (hch : canonHostOK ch = true)
    :
    (canonicalRecord secure (none) ch (none) ([] : List (GoStr × GoStr))).String =
      some (canonicalSip secure (none) ch (none) ([] : List (GoStr × GoStr))) := by
  obtain ⟨hhne, h64h, h63h, h59h, h37h, hhall⟩ := hostText_facts ch hch
  have eh : escape (hostText ch) encodeHost = some (hostText ch) :=
    escape_id _ _ hhall
  simp [URI.String, canonicalRecord, canonicalSip, uinfoText, parText, hdrText, URI.Params, URI.Headers, KVStore.Empty, KVStore.Encode, eh]

/-- String computation for the canonical shape (u, np, nh). -/
theorem string_u_np_nh (secure : Bool) (u : GoStr) (ch : CanonHost)
    (hune : u ≠ []) (hucond : (u.all userSafeByte || u.all userCanonByte) = true)
    (hch : canonHostOK ch = true)
    :
    (canonicalRecord secure (some (u, none)) ch (none) ([] : List (GoStr × GoStr))).String =
      some (canonicalSip secure (some (u, none)) ch (none) ([] : List (GoStr × GoStr))) := by
  obtain ⟨hhne, h64h, h63h, h59h, h37h, hhall⟩ := hostText_facts ch hch
  obtain ⟨hrne, h64u, h58u, hues, hesc⟩ := renderUser_spec u hune hucond
  have eh : escape (hostText ch) encodeHost = some (hostText ch) :=
    escape_id _ _ hhall
  simp [URI.String, canonicalRecord, canonicalSip, uinfoText, parText, hdrText, URI.Params, URI.Headers, KVStore.Empty, KVStore.Encode, eh, hune, hesc]

/-- String computation for the canonical shape (up, np, nh). -/
theorem string_up_np_nh (secure : Bool) (u : GoStr) (p : GoStr) (ch : CanonHost)
    (hune : u ≠ []) (hucond : (u.all userSafeByte || u.all userCanonByte) = true)
    (hpall : p.all userSafeByte = true)
    (hch : canonHostOK ch = true)
    :
    (canonicalRecord secure (some (u, some p)) ch (none) ([] : List (GoStr × GoStr))).String =
      some (canonicalSip secure (some (u, some p)) ch (none) ([] : List (GoStr × GoStr))) := by
  obtain ⟨hhne, h64h, h63h, h59h, h37h, hhall⟩ := hostText_facts ch hch
  obtain ⟨hrne, h64u, h58u, hues, hesc⟩ := renderUser_spec u hune hucond
  have eh : escape (hostText ch) encodeHost = some (hostText ch) :=
    escape_id _ _ hhall
  by_cases hp : p = []
  · simp [URI.String, canonicalRecord, canonicalSip, uinfoText, parText, hdrText, URI.Params, URI.Headers, KVStore.Empty, KVStore.Encode, eh, hune, hesc, hp]
  · simp [URI.String, canonicalRecord, canonicalSip, uinfoText, parText, hdrText, URI.Params, URI.Headers, KVStore.Empty, KVStore.Encode, eh, hune, hesc, hp, escape_user_id p hpall]

/-- String computation for the canonical shape (n, np, hh). -/
theorem string_n_np_hh (secure : Bool) (ch : CanonHost) (h0 : GoStr × GoStr) (hrest : List (GoStr × GoStr))
    (hch : canonHostOK ch = true)
    (hsort : pairwiseStrLt ((h0 :: hrest).map (·.1)) = true)
    :
    (canonicalRecord secure (none) ch (none) (h0 :: hrest)).String =
      some (canonicalSip secure (none) ch (none) (h0 :: hrest)) := by
  obtain ⟨hhne, h64h, h63h, h59h, h37h, hhall⟩ := hostText_facts ch hch
  have eh : escape (hostText ch) encodeHost = some (hostText ch) :=
    escape_id _ _ hhall
  have ehd := encode_pairs (h0 :: hrest) (by simp) hsort
  simp only [List.map_cons] at ehd
  simp [URI.String, canonicalRecord, canonicalSip, uinfoText, parText, hdrText, URI.Params, URI.Headers, KVStore.Empty, KVStore.Encode, eh, ehd]

/-- String computation for the canonical shape (u, np, hh). -/
theorem string_u_np_hh (secure : Bool) (u : GoStr) (ch : CanonHost) (h0 : GoStr × GoStr) (hrest : List (GoStr × GoStr))
    (hune : u ≠ []) (hucond : (u.all userSafeByte || u.all userCanonByte) = true)
    (hch : canonHostOK ch = true)
    (hsort : pairwiseStrLt ((h0 :: hrest).map (·.1)) = true)
    :
    (canonicalRecord secure (some (u, none)) ch (none) (h0 :: hrest)).String =
      some (canonicalSip secure (some (u, none)) ch (none) (h0 :: hrest)) := by
  obtain ⟨hhne, h64h, h63h, h59h, h37h, hhall⟩ := hostText_facts ch hch
  obtain ⟨hrne, h64u, h58u, hues, hesc⟩ := renderUser_spec u hune hucond
  have eh : escape (hostText ch) encodeHost = some (hostText ch) :=
    escape_id _ _ hhall
  have ehd := encode_pairs (h0 :: hrest) (by simp) hsort
  simp only [List.map_cons] at ehd
  simp [URI.String, canonicalRecord, canonicalSip, uinfoText, parText, hdrText, URI.Params, URI.Headers, KVStore.Empty, KVStore.Encode, eh, hune, hesc, ehd]

/-- String computation for the canonical shape (up, np, hh). -/
theorem string_up_np_hh (secure : Bool) (u : GoStr) (p : GoStr) (ch : CanonHost) (h0 : GoStr × GoStr) (hrest : List (GoStr × GoStr))
    (hune : u ≠ []) (hucond : (u.all userSafeByte || u.all userCanonByte) = true)
    (hpall : p.all userSafeByte = true)
    (hch : canonHostOK ch = true)
    (hsort : pairwiseStrLt ((h0 :: hrest).map (·.1)) = true)
    :
    (canonicalRecord secure (some (u, some p)) ch (none) (h0 :: hrest)).String =
      some (canonicalSip secure (some (u, some p)) ch (none) (h0 :: hrest)) := by
  obtain ⟨hhne, h64h, h63h, h59h, h37h, hhall⟩ := hostText_facts ch hch
  obtain ⟨hrne, h64u, h58u, hues, hesc⟩ := renderUser_spec u hune hucond
  have eh : escape (hostText ch) encodeHost = some (hostText ch) :=
    escape_id _ _ hhall
  have ehd := encode_pairs (h0 :: hrest) (by simp) hsort
  simp only [List.map_cons] at ehd
  by_cases hp : p = []
  · simp [URI.String, canonicalRecord, canonicalSip, uinfoText, parText, hdrText, URI.Params, URI.Headers, KVStore.Empty, KVStore.Encode, eh, hune, hesc, ehd, hp]
  · simp [URI.String, canonicalRecord, canonicalSip, uinfoText, parText, hdrText, URI.Params, URI.Headers, KVStore.Empty, KVStore.Encode, eh, hune, hesc, ehd, hp, escape_user_id p hpall]

/-- String computation for the canonical shape (n, pp, nh). -/
theorem string_n_pp_nh (secure : Bool) (ch : CanonHost) (pr : GoStr × GoStr)
    (hch : canonHostOK ch = true)
    :
    (canonicalRecord secure (none) ch (some pr) ([] : List (GoStr × GoStr))).String =
      some (canonicalSip secure (none) ch (some pr) ([] : List (GoStr × GoStr))) := by
  obtain ⟨hhne, h64h, h63h, h59h, h37h, hhall⟩ := hostText_facts ch hch
  have eh : escape (hostText ch) encodeHost = some (hostText ch) :=
    escape_id _ _ hhall
  have ep := encode_one_pair pr
  simp [URI.String, canonicalRecord, canonicalSip, uinfoText, parText, hdrText, URI.Params, URI.Headers, KVStore.Empty, KVStore.Encode, eh, ep]

/-- String computation for the canonical shape (u, pp, nh). -/
theorem string_u_pp_nh (secure : Bool) (u : GoStr) (ch : CanonHost) (pr : GoStr × GoStr)
    (hune : u ≠ []) (hucond : (u.all userSafeByte || u.all userCanonByte) = true)
    (hch : canonHostOK ch = true)
    :
    (canonicalRecord secure (some (u, none)) ch (some pr) ([] : List (GoStr × GoStr))).String =
      some (canonicalSip secure (some (u, none)) ch (some pr) ([] : List (GoStr × GoStr))) := by
  obtain ⟨hhne, h64h, h63h, h59h, h37h, hhall⟩ := hostText_facts ch hch
  obtain ⟨hrne, h64u, h58u, hues, hesc⟩ := renderUser_spec u hune hucond
  have eh : escape (hostText ch) encodeHost = some (hostText ch) :=
    escape_id _ _ hhall
  have ep := encode_one_pair pr
  simp [URI.String, canonicalRecord, canonicalSip, uinfoText, parText, hdrText, URI.Params, URI.Headers, KVStore.Empty, KVStore.Encode, eh, hune, hesc, ep]

/-- String computation for the canonical shape (up, pp, nh). -/
theorem string_up_pp_nh (secure : Bool) (u : GoStr) (p : GoStr) (ch : CanonHost) (pr : GoStr × GoStr)
    (hune : u ≠ []) (hucond : (u.all userSafeByte || u.all userCanonByte) = true)
    (hpall : p.all userSafeByte = true)
    (hch : canonHostOK ch = true)
    :
    (canonicalRecord secure (some (u, some p)) ch (some pr) ([] : List (GoStr × GoStr))).String =
      some (canonicalSip secure (some (u, some p)) ch (some pr) ([] : List (GoStr × GoStr))) := by
  obtain ⟨hhne, h64h, h63h, h59h, h37h, hhall⟩ := hostText_facts ch hch
  obtain ⟨hrne, h64u, h58u, hues, hesc⟩ := renderUser_spec u hune hucond
  have eh : escape (hostText ch) encodeHost = some (hostText ch) :=
    escape_id _ _ hhall
  have ep := encode_one_pair pr
  by_cases hp : p = []
  · simp [URI.String, canonicalRecord, canonicalSip, uinfoText, parText, hdrText, URI.Params, URI.Headers, KVStore.Empty, KVStore.Encode, eh, hune, hesc, ep, hp]
  · simp [URI.String, canonicalRecord, canonicalSip, uinfoText, parText, hdrText, URI.Params, URI.Headers, KVStore.Empty, KVStore.Encode, eh, hune, hesc, ep, hp, escape_user_id p hpall]

/-- String computation for the canonical shape (n, pp, hh). -/
theorem string_n_pp_hh (secure : Bool) (ch : CanonHost) (pr : GoStr × GoStr) (h0 : GoStr × GoStr) (hrest : List (GoStr × GoStr))
    (hch : canonHostOK ch = true)
    (hsort : pairwiseStrLt ((h0 :: hrest).map (·.1)) = true)
    :
    (canonicalRecord secure (none) ch (some pr) (h0 :: hrest)).String =
      some (canonicalSip secure (none) ch (some pr) (h0 :: hrest)) := by
  obtain ⟨hhne, h64h, h63h, h59h, h37h, hhall⟩ := hostText_facts ch hch
  have eh : escape (hostText ch) encodeHost = some (hostText ch) :=
    escape_id _ _ hhall
  have ep := encode_one_pair pr
  have ehd := encode_pairs (h0 :: hrest) (by simp) hsort
  simp only [List.map_cons] at ehd
  simp [URI.String, canonicalRecord, canonicalSip, uinfoText, parText, hdrText, URI.Params, URI.Headers, KVStore.Empty, KVStore.Encode, eh, ep, ehd]

/-- String computation for the canonical shape (u, pp, hh). -/
theorem string_u_pp_hh (secure : Bool) (u : GoStr) (ch : CanonHost) (pr : GoStr × GoStr) (h0 : GoStr × GoStr) (hrest : List (GoStr × GoStr))
    (hune : u ≠ []) (hucond : (u.all userSafeByte || u.all userCanonByte) = true)
    (hch : canonHostOK ch = true)
    (hsort : pairwiseStrLt ((h0 :: hrest).map (·.1)) = true)
    :
    (canonicalRecord secure (some (u, none)) ch (some pr) (h0 :: hrest)).String =
      some (canonicalSip secure (some (u, none)) ch (some pr) (h0 :: hrest)) := by
  obtain ⟨hhne, h64h, h63h, h59h, h37h, hhall⟩ := hostText_facts ch hch
  obtain ⟨hrne, h64u, h58u, hues, hesc⟩ := renderUser_spec u hune hucond
  have eh : escape (hostText ch) encodeHost = some (hostText ch) :=
    escape_id _ _ hhall
  have ep := encode_one_pair pr
  have ehd := encode_pairs (h0 :: hrest) (by simp) hsort
  simp only [List.map_cons] at ehd
  simp [URI.String, canonicalRecord, canonicalSip, uinfoText, parText, hdrText, URI.Params, URI.Headers, KVStore.Empty, KVStore.Encode, eh, hune, hesc, ep, ehd]

/-- The inner parser maps a canonical-form body to the expected record. -/
theorem parse_canonical (secure : Bool) (uinfo : Option (GoStr × Option GoStr))
    (ch : CanonHost) (par : Option (GoStr × GoStr)) (hdr : List (GoStr × GoStr))
    (h : canonicalConditions uinfo ch par hdr = true) :
    parseURI secure
      (uinfoText uinfo ++ hostText ch ++ parText par ++ hdrText hdr) false =
    some (.ok (canonicalRecord secure uinfo ch par hdr)) := by
  rcases par with _ | pr <;> rcases hdr with _ | ⟨h0, hrest⟩ <;>
    rcases uinfo with _ | ⟨u, _ | p⟩ <;>
    simp only [canonicalConditions, Bool.and_eq_true, Bool.not_eq_true',
      List.isEmpty_eq_false] at h
  · obtain ⟨⟨⟨_, hch⟩, _⟩, _⟩ := h
    exact parse_n_np_nh secure ch hch
  · obtain ⟨⟨⟨⟨⟨hune, hucond⟩, _⟩, hch⟩, _⟩, _⟩ := h
    exact parse_u_np_nh secure u ch hune hucond hch
  · obtain ⟨⟨⟨⟨⟨hune, hucond⟩, hpall⟩, hch⟩, _⟩, _⟩ := h
    exact parse_up_np_nh secure u p ch hune hucond hpall hch
  · obtain ⟨⟨⟨_, hch⟩, _⟩, hall, hsort⟩ := h
    exact parse_n_np_hh secure ch h0 hrest hch hall hsort
  · obtain ⟨⟨⟨⟨⟨hune, hucond⟩, _⟩, hch⟩, _⟩, hall, hsort⟩ := h
    exact parse_u_np_hh secure u ch h0 hrest hune hucond hch hall hsort
  · obtain ⟨⟨⟨⟨⟨hune, hucond⟩, hpall⟩, hch⟩, _⟩, hall, hsort⟩ := h
    exact parse_up_np_hh secure u p ch h0 hrest hune hucond hpall hch hall hsort
  · obtain ⟨⟨⟨_, hch⟩, hpr⟩, _⟩ := h
    exact parse_n_pp_nh secure ch pr hch hpr
  · obtain ⟨⟨⟨⟨⟨hune, hucond⟩, _⟩, hch⟩, hpr⟩, _⟩ := h
    exact parse_u_pp_nh secure u ch pr hune hucond hch hpr
  · obtain ⟨⟨⟨⟨⟨hune, hucond⟩, hpall⟩, hch⟩, hpr⟩, _⟩ := h
    exact parse_up_pp_nh secure u p ch pr hune hucond hpall hch hpr
  · obtain ⟨⟨⟨_, hch⟩, hpr⟩, hall, hsort⟩ := h
    exact parse_n_pp_hh secure ch pr h0 hrest hch hpr hall hsort
  · obtain ⟨⟨⟨⟨⟨hune, hucond⟩, _⟩, hch⟩, hpr⟩, hall, hsort⟩ := h
    exact parse_u_pp_hh secure u ch pr h0 hrest hune hucond hch hpr hall hsort
  · obtain ⟨⟨⟨⟨⟨hune, hucond⟩, hpall⟩, hch⟩, hpr⟩, hall, hsort⟩ := h
    exact parse_up_pp_hh secure u p ch pr h0 hrest hune hucond hpall hch hpr hall hsort

/-- Serializing the canonical record reproduces the canonical string. -/
theorem string_canonical (secure : Bool) (uinfo : Option (GoStr × Option GoStr))
    (ch : CanonHost) (par : Option (GoStr × GoStr)) (hdr : List (GoStr × GoStr))
    (h : canonicalConditions uinfo ch par hdr = true) :
    (canonicalRecord secure uinfo ch par hdr).String =
      some (canonicalSip secure uinfo ch par hdr) := by
  rcases par with _ | pr <;> rcases hdr with _ | ⟨h0, hrest⟩ <;>
    rcases uinfo with _ | ⟨u, _ | p⟩ <;>
    simp only [canonicalConditions, Bool.and_eq_true, Bool.not_eq_true',
      List.isEmpty_eq_false] at h
  · obtain ⟨⟨⟨_, hch⟩, _⟩, _⟩ := h
    exact string_n_np_nh secure ch hch
  · obtain ⟨⟨⟨⟨⟨hune, hucond⟩, _⟩, hch⟩, _⟩, _⟩ := h
    exact string_u_np_nh secure u ch hune hucond hch
  · obtain ⟨⟨⟨⟨⟨hune, hucond⟩, hpall⟩, hch⟩, _⟩, _⟩ := h
    exact string_up_np_nh secure u p ch hune hucond hpall hch
  · obtain ⟨⟨⟨_, hch⟩, _⟩, _, hsort⟩ := h
    exact string_n_np_hh secure ch h0 hrest hch hsort
  · obtain ⟨⟨⟨⟨⟨hune, hucond⟩, _⟩, hch⟩, _⟩, _, hsort⟩ := h
    exact string_u_np_hh secure u ch h0 hrest hune hucond hch hsort
  · obtain ⟨⟨⟨⟨⟨hune, hucond⟩, hpall⟩, hch⟩, _⟩, _, hsort⟩ := h
    exact string_up_np_hh secure u p ch h0 hrest hune hucond hpall hch hsort
  · obtain ⟨⟨⟨_, hch⟩, _⟩, _⟩ := h
    exact string_n_pp_nh secure ch pr hch
  · obtain ⟨⟨⟨⟨⟨hune, hucond⟩, _⟩, hch⟩, _⟩, _⟩ := h
    exact string_u_pp_nh secure u ch pr hune hucond hch
  · obtain ⟨⟨⟨⟨⟨hune, hucond⟩, hpall⟩, hch⟩, _⟩, _⟩ := h
    exact string_up_pp_nh secure u p ch pr hune hucond hpall hch
  · obtain ⟨⟨⟨_, hch⟩, _⟩, _, hsort⟩ := h
    exact string_n_pp_hh secure ch pr h0 hrest hch hsort
  · obtain ⟨⟨⟨⟨⟨hune, hucond⟩, _⟩, hch⟩, _⟩, _, hsort⟩ := h
    exact string_u_pp_hh secure u ch pr h0 hrest hune hucond hch hsort
  · obtain ⟨⟨⟨⟨⟨hune, hucond⟩, hpall⟩, hch⟩, _⟩, _, hsort⟩ := h
    exact string_up_pp_hh secure u p ch pr h0 hrest hune hucond hpall hch hsort

/-- C1 amended: round-trip holds on the canonical family the counterexample
leaves intact.  The family covers an optional non-empty user given by its
decoded bytes (either over bytes the user-info serializer leaves unescaped,
or canonically percent-escaped genuine bytes whose query-escaping the
user-info table also escapes), an optional password over unescaped
user-info bytes, a host that is a bare name, a name:port, a bracketed IPv6
literal (with an even number of colons when no port follows) or a bracketed
literal with a port, an optional single parameter pair and a header block of
any number of pairs with strictly sorted keys, the pair halves being
arbitrary decoded genuine bytes rendered query-escaped.  Parsing such an
input yields the expected record and serializing it reproduces the input
byte-for-byte.  Multi-pair parameter blocks, valueless pairs and escaped
passwords remain excluded: the counterexample shows those do not
round-trip. -/
theorem c1_canonical_round_trip (secure : Bool) (uinfo : Option (GoStr × Option GoStr))
    (ch : CanonHost) (par : Option (GoStr × GoStr)) (hdr : List (GoStr × GoStr))
    (h : canonicalConditions uinfo ch par hdr = true) :
    Parse (canonicalSip secure uinfo ch par hdr) =
      some (.ok (canonicalRecord secure uinfo ch par hdr)) ∧
    parseThenString (canonicalSip secure uinfo ch par hdr) =
      some (canonicalSip secure uinfo ch par hdr) := by
  have hparse : Parse (canonicalSip secure uinfo ch par hdr) =
      some (.ok (canonicalRecord secure uinfo ch par hdr)) := by
    rcases secure with _ | _
    · rw [show canonicalSip false uinfo ch par hdr =
          sipProtocol ++ (uinfoText uinfo ++ hostText ch ++ parText par ++ hdrText hdr) by
        simp [canonicalSip]]
      unfold Parse
      rw [if_pos (by rw [isPrefixOf_append_self])]
      rw [List.drop_left]
      exact parse_canonical false uinfo ch par hdr h
    · rw [show canonicalSip true uinfo ch par hdr =
          sipsProtocol ++ (uinfoText uinfo ++ hostText ch ++ parText par ++ hdrText hdr) by
        simp [canonicalSip]]
      unfold Parse
      rw [if_neg (by rw [sip_not_prefixOf_sips]; simp)]
      rw [if_pos (by rw [isPrefixOf_append_self])]
      rw [List.drop_left]
      exact parse_canonical true uinfo ch par hdr h
  refine ⟨hparse, ?_⟩
  unfold parseThenString
  rw [hparse]
  exact string_canonical secure uinfo ch par hdr h

/-- C1 witness: the theorem applied to a concrete input exercising every
broadened feature at once: an escaped user, a password, a bracketed IPv6
host with a port, an escaped parameter value and two sorted header pairs,
namely sip:j%40s0n:pw@[::]:1111;a=b%20c?x=1&y=2. -/
theorem c1_canonical_round_trip_witness :
    Parse (canonicalSip false (some (bytes "j@s0n", some (bytes "pw")))
        (.bracketPort (bytes "::") (bytes "1111"))
        (some (bytes "a", bytes "b c")) [(bytes "x", bytes "1"), (bytes "y", bytes "2")]) =
      some (.ok (canonicalRecord false (some (bytes "j@s0n", some (bytes "pw")))
        (.bracketPort (bytes "::") (bytes "1111"))
        (some (bytes "a", bytes "b c")) [(bytes "x", bytes "1"), (bytes "y", bytes "2")])) ∧
    parseThenString (canonicalSip false (some (bytes "j@s0n", some (bytes "pw")))
        (.bracketPort (bytes "::") (bytes "1111"))
        (some (bytes "a", bytes "b c")) [(bytes "x", bytes "1"), (bytes "y", bytes "2")]) =
      some (canonicalSip false (some (bytes "j@s0n", some (bytes "pw")))
        (.bracketPort (bytes "::") (bytes "1111"))
        (some (bytes "a", bytes "b c")) [(bytes "x", bytes "1"), (bytes "y", bytes "2")]) :=
  c1_canonical_round_trip false (some (bytes "j@s0n", some (bytes "pw")))
    (.bracketPort (bytes "::") (bytes "1111"))
    (some (bytes "a", bytes "b c")) [(bytes "x", bytes "1"), (bytes "y", bytes "2")]
    (by decide)
